import Mathlib

/-
Verification development for the linkding-cn bookmarking service core:
the saved-search parameter precedence engine (bookmarks/models.py), the
domain-scoped configuration resolver (bookmarks/utils.py) and the bounded
streaming page fetcher (bookmarks/services/website_loader.py).

Python values are embedded shallowly: dates as explicit year/month/day
records, JSON as an inductive, Python `None` and truthiness explicitly,
exceptions as `Except`/outcome types.
-/

namespace LinkdingVerify

/-! ### Date model (Python `datetime.date`)

A Python `date` is a calendar triple.  `nextDay`/`prevDay` step through the
proleptic Gregorian calendar; `date - timedelta(days=k)` is `k` backward
steps (forward for negative `k`).  Python restricts years to 1..9999 and
raises OverflowError outside that range; the model uses the unbounded
proleptic calendar, which agrees with Python on every representable date. -/

structure PyDate where
  year : Int
  month : Nat
  day : Nat
deriving DecidableEq, Repr

/-- Python `calendar.isleap` / the leap rule used by `date`. -/
def isLeapYear (y : Int) : Bool :=
  y % 4 == 0 && (y % 100 != 0 || y % 400 == 0)

/-- Python `calendar.monthrange(y, m)[1]` for months 1..12. -/
def daysInMonth (y : Int) (m : Nat) : Nat :=
  match m with
  | 1 => 31
  | 2 => if isLeapYear y then 29 else 28
  | 3 => 31
  | 4 => 30
  | 5 => 31
  | 6 => 30
  | 7 => 31
  | 8 => 31
  | 9 => 30
  | 10 => 31
  | 11 => 30
  | 12 => 31
  | _ => 0

def validDate (d : PyDate) : Prop :=
  1 ≤ d.month ∧ d.month ≤ 12 ∧ 1 ≤ d.day ∧ d.day ≤ daysInMonth d.year d.month

instance : DecidablePred validDate := fun d => by
  unfold validDate; infer_instance

def nextDay (d : PyDate) : PyDate :=
  if d.day < daysInMonth d.year d.month then ⟨d.year, d.month, d.day + 1⟩
  else if d.month < 12 then ⟨d.year, d.month + 1, 1⟩
  else ⟨d.year + 1, 1, 1⟩

def prevDay (d : PyDate) : PyDate :=
  if 2 ≤ d.day then ⟨d.year, d.month, d.day - 1⟩
  else if 2 ≤ d.month then ⟨d.year, d.month - 1, daysInMonth d.year (d.month - 1)⟩
  else ⟨d.year - 1, 12, 31⟩

/-- `d + timedelta(days=k)` for `k ≥ 0`. -/
def addDays (d : PyDate) (k : Nat) : PyDate := nextDay^[k] d

/-- `d - timedelta(days=k)` for `k ≥ 0`. -/
def subDays (d : PyDate) (k : Nat) : PyDate := prevDay^[k] d

/-- `d - timedelta(days=k)` for arbitrary integer `k` (negative `k` moves forward). -/
def dateSubInt (d : PyDate) (k : Int) : PyDate :=
  if 0 ≤ k then subDays d k.toNat else addDays d (-k).toNat

/-- Python date comparison `a < b` (calendar, i.e. lexicographic, order). -/
def dateLt (a b : PyDate) : Bool :=
  a.year < b.year ||
    (a.year == b.year && (a.month < b.month || (a.month == b.month && a.day < b.day)))

/-- Python date comparison `a <= b`. -/
def dateLe (a b : PyDate) : Bool := dateLt a b || a == b

/-- Sakamoto day-of-week table (January .. December). -/
def sakamotoTable : List Int := [0, 3, 2, 5, 0, 3, 5, 1, 4, 6, 2, 4]

/-- Python `date.weekday()`: 0 = Monday .. 6 = Sunday (Sakamoto's congruence). -/
def weekday (d : PyDate) : Nat :=
  let y : Int := if d.month < 3 then d.year - 1 else d.year
  let t : Int := sakamotoTable.getD (d.month - 1) 0
  (((y + y.fdiv 4 - y.fdiv 100 + y.fdiv 400 + t + d.day) % 7 + 6) % 7).toNat

/-! ### `BookmarkSearch.parse_relative_date_string` (bookmarks/models.py)

The Python code reads the clock (`date.today()`); the embedding takes
`today` as an explicit argument.  The regex
`last_(\d+)_(day|week|month|year)s?` is applied with `re.match`, which
anchors at the start of the string only: trailing characters after the
matched portion are ignored.  `matchLastPattern` reproduces exactly that
prefix semantics (`\d` restricted to ASCII digits). -/

def digitsToNat (cs : List Char) : Nat :=
  cs.foldl (fun n c => n * 10 + (c.toNat - 48)) 0

def matchLastChars (cs : List Char) : Option (Nat × String) :=
  if ("last_".data).isPrefixOf cs then
    let rest := cs.drop 5
    let digits := rest.takeWhile Char.isDigit
    if digits.isEmpty then none
    else
      let rest2 := rest.drop digits.length
      if ("_".data).isPrefixOf rest2 then
        let rest3 := rest2.drop 1
        if ("day".data).isPrefixOf rest3 then some (digitsToNat digits, "day")
        else if ("week".data).isPrefixOf rest3 then some (digitsToNat digits, "week")
        else if ("month".data).isPrefixOf rest3 then some (digitsToNat digits, "month")
        else if ("year".data).isPrefixOf rest3 then some (digitsToNat digits, "year")
        else none
      else none
  else none

def matchLastPattern (s : String) : Option (Nat × String) :=
  matchLastChars s.data

/-- `BookmarkSearch.parse_relative_date_string(s)` with `today` made explicit. -/
def parse_relative_date_string (s : String) (today : PyDate) :
    Option PyDate × Option PyDate :=
  if s = "today" then (some today, some today)
  else if s = "yesterday" then
    let y := subDays today 1
    (some y, some y)
  else if s = "this_week" then
    let monday := subDays today (weekday today)
    (some monday, some (addDays monday 6))
  else if s = "this_month" then
    (some ⟨today.year, today.month, 1⟩,
     some ⟨today.year, today.month, daysInMonth today.year today.month⟩)
  else if s = "this_year" then
    (some ⟨today.year, 1, 1⟩, some ⟨today.year, 12, 31⟩)
  else
    match matchLastPattern s with
    | some (n, unit) =>
      let daysBack : Int :=
        if unit = "day" then (n : Int) - 1
        else if unit = "week" then (n : Int) * 7 - 1
        else if unit = "month" then (n : Int) * 30 - 1
        else (n : Int) * 365 - 1
      (some (dateSubInt today daysBack), some today)
    | none => (none, none)

/-! ### Basic calendar lemmas -/

theorem daysInMonth_ge (y : Int) (m : Nat) (h1 : 1 ≤ m) (h12 : m ≤ 12) :
    28 ≤ daysInMonth y m := by
  interval_cases m <;> first
    | (simp only [daysInMonth]; omega)
    | (simp only [daysInMonth]; split <;> omega)

theorem dateLt_eq (a b : PyDate) : dateLt a b = true ↔
    a.year < b.year ∨
      (a.year = b.year ∧ (a.month < b.month ∨ (a.month = b.month ∧ a.day < b.day))) := by
  unfold dateLt
  simp only [Bool.or_eq_true, Bool.and_eq_true, decide_eq_true_eq, beq_iff_eq]

theorem dateLe_eq (a b : PyDate) : dateLe a b = true ↔ dateLt a b = true ∨ a = b := by
  unfold dateLe
  simp only [Bool.or_eq_true, beq_iff_eq]

theorem prevDay_valid {d : PyDate} (h : validDate d) : validDate (prevDay d) := by
  obtain ⟨h1, h2, h3, h4⟩ := h
  unfold prevDay
  split
  · exact ⟨h1, h2, show 1 ≤ d.day - 1 by omega,
      show d.day - 1 ≤ daysInMonth d.year d.month by omega⟩
  · split
    · have h28 := daysInMonth_ge d.year (d.month - 1) (by omega) (by omega)
      exact ⟨show 1 ≤ d.month - 1 by omega, show d.month - 1 ≤ 12 by omega,
        show 1 ≤ daysInMonth d.year (d.month - 1) by omega, le_refl _⟩
    · exact ⟨show (1 : Nat) ≤ 12 by omega, show (12 : Nat) ≤ 12 by omega,
        show (1 : Nat) ≤ 31 by omega, show (31 : Nat) ≤ 31 by omega⟩

theorem prevDay_lt {d : PyDate} (h : validDate d) : dateLt (prevDay d) d = true := by
  obtain ⟨h1, h2, h3, h4⟩ := h
  unfold prevDay
  split
  · rw [dateLt_eq]
    exact Or.inr ⟨rfl, Or.inr ⟨rfl, show d.day - 1 < d.day by omega⟩⟩
  · split
    · rw [dateLt_eq]
      exact Or.inr ⟨rfl, Or.inl (show d.month - 1 < d.month by omega)⟩
    · rw [dateLt_eq]
      exact Or.inl (show d.year - 1 < d.year by omega)

theorem nextDay_valid {d : PyDate} (h : validDate d) : validDate (nextDay d) := by
  obtain ⟨h1, h2, h3, h4⟩ := h
  unfold nextDay
  split
  · exact ⟨h1, h2, show 1 ≤ d.day + 1 by omega,
      show d.day + 1 ≤ daysInMonth d.year d.month by omega⟩
  · split
    · have h28 := daysInMonth_ge d.year (d.month + 1) (by omega) (by omega)
      exact ⟨show 1 ≤ d.month + 1 by omega, show d.month + 1 ≤ 12 by omega,
        show (1 : Nat) ≤ 1 by omega, show 1 ≤ daysInMonth d.year (d.month + 1) by omega⟩
    · exact ⟨show (1 : Nat) ≤ 1 by omega, show (1 : Nat) ≤ 12 by omega,
        show (1 : Nat) ≤ 1 by omega, show (1 : Nat) ≤ 31 by omega⟩

theorem nextDay_gt {d : PyDate} (h : validDate d) : dateLt d (nextDay d) = true := by
  obtain ⟨h1, h2, h3, h4⟩ := h
  unfold nextDay
  split
  · rw [dateLt_eq]
    exact Or.inr ⟨rfl, Or.inr ⟨rfl, show d.day < d.day + 1 by omega⟩⟩
  · split
    · rw [dateLt_eq]
      exact Or.inr ⟨rfl, Or.inl (show d.month < d.month + 1 by omega)⟩
    · rw [dateLt_eq]
      exact Or.inl (show d.year < d.year + 1 by omega)

theorem dateLt_trans {a b c : PyDate} (h1 : dateLt a b = true) (h2 : dateLt b c = true) :
    dateLt a c = true := by
  rw [dateLt_eq] at *
  omega

theorem dateLe_of_lt {a b : PyDate} (h : dateLt a b = true) : dateLe a b = true := by
  rw [dateLe_eq]
  exact Or.inl h

theorem dateLe_refl (a : PyDate) : dateLe a a = true := by
  rw [dateLe_eq]
  exact Or.inr rfl

theorem dateLt_of_lt_of_le {a b c : PyDate} (h1 : dateLt a b = true)
    (h2 : dateLe b c = true) : dateLt a c = true := by
  rw [dateLe_eq] at h2
  rcases h2 with h2 | h2
  · exact dateLt_trans h1 h2
  · exact h2 ▸ h1

theorem subDays_succ (d : PyDate) (k : Nat) : subDays d (k + 1) = prevDay (subDays d k) := by
  unfold subDays
  exact Function.iterate_succ_apply' prevDay k d

theorem addDays_succ (d : PyDate) (k : Nat) : addDays d (k + 1) = nextDay (addDays d k) := by
  unfold addDays
  exact Function.iterate_succ_apply' nextDay k d

theorem subDays_valid {d : PyDate} (h : validDate d) (k : Nat) :
    validDate (subDays d k) := by
  induction k with
  | zero => exact h
  | succ n ih =>
    rw [subDays_succ]
    exact prevDay_valid ih

theorem subDays_le {d : PyDate} (h : validDate d) (k : Nat) :
    dateLe (subDays d k) d = true := by
  induction k with
  | zero => exact dateLe_refl d
  | succ n ih =>
    rw [subDays_succ]
    have hv : validDate (subDays d n) := subDays_valid h n
    exact dateLe_of_lt (dateLt_of_lt_of_le (prevDay_lt hv) ih)

theorem addDays_valid {d : PyDate} (h : validDate d) (k : Nat) :
    validDate (addDays d k) := by
  induction k with
  | zero => exact h
  | succ n ih =>
    rw [addDays_succ]
    exact nextDay_valid ih

theorem addDays_ge {d : PyDate} (h : validDate d) (k : Nat) :
    dateLe d (addDays d k) = true := by
  induction k with
  | zero => exact dateLe_refl d
  | succ n ih =>
    rw [addDays_succ]
    have hv : validDate (addDays d n) := addDays_valid h n
    have hlt := nextDay_gt hv
    rw [dateLe_eq] at ih ⊢
    rcases ih with ih | ih
    · exact Or.inl (dateLt_trans ih hlt)
    · exact Or.inl (ih ▸ hlt)

/-! ### Claim C5 -/

/-- C5 counterexample.  The claim states that every vocabulary token yields
`start <= end` and every string outside the closed vocabulary yields
`(None, None)`.  Both parts fail on the code: `last_0_days` (matched by the
regex, `N = 0`) yields `start = today + 1 > end`, because
`today - timedelta(days=0 - 1)` moves forward; and `last_2_weekend` is
outside the closed vocabulary yet yields the `last_2_week` range, because
`re.match` only anchors at the start of the string and ignores trailing
characters. -/
theorem C5_relative_date_counterexample :
    parse_relative_date_string "last_0_days" ⟨2024, 6, 10⟩ =
        (some ⟨2024, 6, 11⟩, some ⟨2024, 6, 10⟩)
      ∧ dateLe ⟨2024, 6, 11⟩ ⟨2024, 6, 10⟩ = false
      ∧ parse_relative_date_string "last_2_weekend" ⟨2024, 6, 10⟩ =
        (some ⟨2024, 5, 28⟩, some ⟨2024, 6, 10⟩) := by
  decide

/-- C5 (amended): for every fixed valid `today`, `parse_relative_date_string`
maps `today`/`yesterday`/`this_week`/`this_month`/`this_year` to the specified
ranges with `start <= end`; every string whose prefix matches
`last_(\d+)_(day|week|month|year)s?` with `N >= 1` (trailing characters after
the match are ignored, per `re.match`) is mapped to
`today-(N-1) / today-(7N-1) / today-(30N-1) / today-(365N-1) .. today` with
`start <= end`; strings matching neither a keyword nor the pattern yield
`(None, None)`; and `last_7_days` on `today = 2024-06-10` yields
`(2024-06-04, 2024-06-10)`.  (For `N = 0` the pattern still matches but the
derived start exceeds the end.) -/
theorem C5_relative_date_ranges (today : PyDate) (h : validDate today) :
    (parse_relative_date_string "today" today = (some today, some today)
      ∧ dateLe today today = true)
    ∧ parse_relative_date_string "yesterday" today =
        (some (subDays today 1), some (subDays today 1))
    ∧ (parse_relative_date_string "this_week" today =
        (some (subDays today (weekday today)),
          some (addDays (subDays today (weekday today)) 6))
      ∧ dateLe (subDays today (weekday today))
          (addDays (subDays today (weekday today)) 6) = true)
    ∧ (parse_relative_date_string "this_month" today =
        (some ⟨today.year, today.month, 1⟩,
          some ⟨today.year, today.month, daysInMonth today.year today.month⟩)
      ∧ dateLe ⟨today.year, today.month, 1⟩
          ⟨today.year, today.month, daysInMonth today.year today.month⟩ = true)
    ∧ (parse_relative_date_string "this_year" today =
        (some ⟨today.year, 1, 1⟩, some ⟨today.year, 12, 31⟩)
      ∧ dateLe ⟨today.year, 1, 1⟩ ⟨today.year, 12, 31⟩ = true)
    ∧ (∀ s n unit, matchLastPattern s = some (n, unit) → 1 ≤ n →
        ∀ c : Nat, ((unit = "day" ∧ c = 1) ∨ (unit = "week" ∧ c = 7)
            ∨ (unit = "month" ∧ c = 30) ∨ (unit = "year" ∧ c = 365)) →
          parse_relative_date_string s today = (some (subDays today (c * n - 1)), some today)
          ∧ dateLe (subDays today (c * n - 1)) today = true)
    ∧ (∀ s, s ≠ "today" → s ≠ "yesterday" → s ≠ "this_week" → s ≠ "this_month" →
        s ≠ "this_year" → matchLastPattern s = none →
          parse_relative_date_string s today = (none, none))
    ∧ parse_relative_date_string "last_7_days" ⟨2024, 6, 10⟩ =
        (some ⟨2024, 6, 4⟩, some ⟨2024, 6, 10⟩) := by
  obtain ⟨h1, h2, h3, h4⟩ := h
  refine ⟨⟨rfl, dateLe_refl today⟩, rfl, ⟨rfl, ?_⟩, ⟨rfl, ?_⟩, ⟨rfl, ?_⟩, ?_, ?_, by decide⟩
  · exact addDays_ge (subDays_valid ⟨h1, h2, h3, h4⟩ (weekday today)) 6
  · have hdim := daysInMonth_ge today.year today.month h1 h2
    rw [dateLe_eq]
    left
    rw [dateLt_eq]
    exact Or.inr ⟨rfl, Or.inr ⟨rfl, show 1 < daysInMonth today.year today.month by omega⟩⟩
  · rw [dateLe_eq]
    left
    rw [dateLt_eq]
    exact Or.inr ⟨rfl, Or.inl (show (1 : Nat) < 12 by omega)⟩
  · intro s n unit hm hn c hc
    have hne1 : s ≠ "today" := fun he => by
      rw [he, show matchLastPattern "today" = none from by decide] at hm; cases hm
    have hne2 : s ≠ "yesterday" := fun he => by
      rw [he, show matchLastPattern "yesterday" = none from by decide] at hm; cases hm
    have hne3 : s ≠ "this_week" := fun he => by
      rw [he, show matchLastPattern "this_week" = none from by decide] at hm; cases hm
    have hne4 : s ≠ "this_month" := fun he => by
      rw [he, show matchLastPattern "this_month" = none from by decide] at hm; cases hm
    have hne5 : s ≠ "this_year" := fun he => by
      rw [he, show matchLastPattern "this_year" = none from by decide] at hm; cases hm
    have hle : dateLe (subDays today (c * n - 1)) today = true :=
      subDays_le ⟨h1, h2, h3, h4⟩ (c * n - 1)
    refine ⟨?_, hle⟩
    unfold parse_relative_date_string
    rw [if_neg hne1, if_neg hne2, if_neg hne3, if_neg hne4, if_neg hne5, hm]
    rcases hc with ⟨hu, hcv⟩ | ⟨hu, hcv⟩ | ⟨hu, hcv⟩ | ⟨hu, hcv⟩ <;> subst hu <;> subst hcv
    · have harith : dateSubInt today ((n : Int) - 1) = subDays today (1 * n - 1) := by
        unfold dateSubInt
        rw [if_pos (by omega)]
        congr 1
        omega
      simp only [reduceIte, harith]
    · have harith : dateSubInt today ((n : Int) * 7 - 1) = subDays today (7 * n - 1) := by
        unfold dateSubInt
        rw [if_pos (by omega)]
        congr 1
        omega
      simp only [reduceIte, String.reduceEq, harith]
    · have harith : dateSubInt today ((n : Int) * 30 - 1) = subDays today (30 * n - 1) := by
        unfold dateSubInt
        rw [if_pos (by omega)]
        congr 1
        omega
      simp only [reduceIte, String.reduceEq, harith]
    · have harith : dateSubInt today ((n : Int) * 365 - 1) = subDays today (365 * n - 1) := by
        unfold dateSubInt
        rw [if_pos (by omega)]
        congr 1
        omega
      simp only [reduceIte, String.reduceEq, harith]
  · intro s hne1 hne2 hne3 hne4 hne5 hm
    unfold parse_relative_date_string
    rw [if_neg hne1, if_neg hne2, if_neg hne3, if_neg hne4, if_neg hne5, hm]

/-- C5 witness: the amended theorem applied at the concrete valid date
2024-06-10. -/
theorem C5_relative_date_witness :
    validDate ⟨2024, 6, 10⟩
      ∧ parse_relative_date_string "today" ⟨2024, 6, 10⟩ =
          (some ⟨2024, 6, 10⟩, some ⟨2024, 6, 10⟩) :=
  ⟨by decide, (C5_relative_date_ranges ⟨2024, 6, 10⟩ (by decide)).1.1⟩

/-! ### `BookmarkSearch` / `BookmarkBundle` (bookmarks/models.py)

Python attribute values are embedded as `PyVal`: `vnone` is `None`, `vstr`
a string, `vdate` a `datetime.date`, `vbundle` a `BookmarkBundle` reference
(Django model equality compares primary keys, so the id suffices).
A `BookmarkBundle.search_params` JSON document maps parameter names to JSON
values; absent keys read as `None` through `dict.get`. -/

inductive PyVal where
  | vnone
  | vstr (s : String)
  | vdate (d : PyDate)
  | vbundle (id : Nat)
deriving DecidableEq, Repr

/-- Python truthiness of the embedded values (`bool(x)`). -/
def PyVal.truthy : PyVal → Bool
  | .vnone => false
  | .vstr s => s != ""
  | .vdate _ => true
  | .vbundle _ => true

/-- The fifteen entries of `BookmarkSearch.params`, in source order. -/
inductive Param where
  | q
  | user
  | bundle
  | sort
  | shared
  | unread
  | tagged
  | modified_since
  | added_since
  | deleted_since
  | date_filter_by
  | date_filter_type
  | date_filter_relative_string
  | date_filter_start
  | date_filter_end
deriving DecidableEq, Repr, Fintype

def paramsList : List Param :=
  [.q, .user, .bundle, .sort, .shared, .unread, .tagged, .modified_since,
   .added_since, .deleted_since, .date_filter_by, .date_filter_type,
   .date_filter_relative_string, .date_filter_start, .date_filter_end]

/-- `BookmarkSearch.preferences` (the preference-backed parameter subset). -/
def preferencesList : List Param :=
  [.sort, .shared, .unread, .tagged, .date_filter_by, .date_filter_type,
   .date_filter_relative_string]

/-- `BookmarkSearch.defaults` (the class-level hard defaults). -/
def hardDefaults : Param → PyVal
  | .q => .vstr ""
  | .user => .vstr ""
  | .bundle => .vnone
  | .sort => .vstr "added_desc"
  | .shared => .vstr "off"
  | .unread => .vstr "off"
  | .tagged => .vstr "off"
  | .modified_since => .vnone
  | .added_since => .vnone
  | .deleted_since => .vnone
  | .date_filter_by => .vstr "off"
  | .date_filter_type => .vstr "absolute"
  | .date_filter_relative_string => .vnone
  | .date_filter_start => .vnone
  | .date_filter_end => .vnone

/-- A `BookmarkBundle` row: its primary key and its `search_params` JSON map
(values of JSON documents are strings or null, read as `vnone`). -/
structure Bundle where
  id : Nat
  search_params : Param → PyVal

/-- A constructed `BookmarkSearch` object: `store` is `self.__dict__` for the
fifteen parameters, `bundleRef` the attached bundle object (also reachable as
`store .bundle`), `defaults` the instance-level `self.defaults`. -/
structure BookmarkSearch where
  store : Param → PyVal
  bundleRef : Option Bundle
  defaults : Param → PyVal

/-- One step of the `__init__` merge loop:
`final_value = user if user is not None else (bundle_value or default_value)`. -/
def resolveParam (userV bundleV defaultV : PyVal) : PyVal :=
  if userV ≠ PyVal.vnone then userV
  else if bundleV.truthy then bundleV else defaultV

/-- `BookmarkSearch.__init__(..., bundle=bundle, preferences=preferences)`:
instance defaults are the class defaults overridden by the preference dict,
then every parameter is resolved by `resolveParam`.  The `bundle` keyword is
both the `user_params['bundle']` entry and the source of `bundle_params`. -/
def mkBookmarkSearch (userParams : Param → PyVal) (bundle : Option Bundle)
    (preferences : Param → Option PyVal) : BookmarkSearch :=
  let defaults : Param → PyVal := fun p => (preferences p).getD (hardDefaults p)
  let uview : Param → PyVal := fun p =>
    match p with
    | .bundle =>
      match bundle with
      | some b => .vbundle b.id
      | none => .vnone
    | _ => userParams p
  let bundleParams : Param → PyVal :=
    match bundle with
    | some b => b.search_params
    | none => fun _ => .vnone
  { store := fun p => resolveParam (uview p) (bundleParams p) (defaults p)
    bundleRef := bundle
    defaults := defaults }

/-- Split a character list at every occurrence of `sep` (Python `str.split`). -/
def splitOnChar (sep : Char) : List Char → List (List Char)
  | [] => [[]]
  | c :: rest =>
    let r := splitOnChar sep rest
    if c = sep then [] :: r
    else
      match r with
      | g :: gs => (c :: g) :: gs
      | [] => [[c]]

/-- `datetime.strptime(s, "%Y-%m-%d").date()`: four year digits, one or two
month and day digits, then calendar validation by the `date` constructor
(year at least `MINYEAR = 1`).  Returns `none` where Python raises
`ValueError`. -/
def parseIsoDate (s : String) : Option PyDate :=
  match splitOnChar '-' s.data with
  | [ys, ms, ds] =>
    if ys.length == 4 && ys.all Char.isDigit
        && (ms.length == 1 || ms.length == 2) && ms.all Char.isDigit
        && (ds.length == 1 || ds.length == 2) && ds.all Char.isDigit then
      let y : Int := (digitsToNat ys : Int)
      let m := digitsToNat ms
      let d := digitsToNat ds
      if 1 ≤ y ∧ 1 ≤ m ∧ m ≤ 12 ∧ 1 ≤ d ∧ d ≤ daysInMonth y m then
        some ⟨y, m, d⟩
      else none
    else none
  | _ => none

/-- The date-deserialization step of `BookmarkBundle.search_object`: a stored
non-empty string is parsed as `%Y-%m-%d` (popped on failure, i.e. read as
`None`); empty strings and non-string values pass through unchanged. -/
def parseDateParam : PyVal → PyVal
  | .vstr s =>
    if s = "" then .vstr ""
    else
      match parseIsoDate s with
      | some d => .vdate d
      | none => .vnone
  | v => v

/-- `BookmarkBundle.search_object`: deserialize the stored date fields, then
construct `BookmarkSearch(bundle=self, **params)` (no preferences). -/
def search_object (b : Bundle) : BookmarkSearch :=
  let params : Param → PyVal := fun p =>
    match p with
    | .date_filter_start => parseDateParam (b.search_params p)
    | .date_filter_end => parseDateParam (b.search_params p)
    | _ => b.search_params p
  mkBookmarkSearch params (some b) (fun _ => none)

/-- The `setattr(search, param, value)` loop of `from_request`: the date
setters write straight to `__dict__`, so every parameter assignment is a
plain store update. -/
def setParams (s : BookmarkSearch) (vals : Param → Option String) : BookmarkSearch :=
  { s with
    store := fun p =>
      match vals p with
      | some v => .vstr v
      | none => s.store p }

/-- The `initial_values` dict of `from_request`: every query parameter except
`bundle` whose value is truthy (non-empty). -/
def requestInitial (query : Param → Option String) : Param → Option String := fun p =>
  match p with
  | .bundle => none
  | _ =>
    match query p with
    | some v => if v = "" then none else some v
    | none => none

/-- `BookmarkSearch.from_request(request, query_dict, preferences)`.
`findBundle` stands for the owner-scoped database lookup
`BookmarkBundle.objects.filter(owner=.., pk=bundle_id).first()`.  With a
bundle the search starts from `bundle.search_object` (preferences unused) and
explicit values are set on top; without one `BookmarkSearch` is constructed
from the explicit values and the preferences. -/
def from_request (query : Param → Option String) (findBundle : String → Option Bundle)
    (preferences : Param → Option PyVal) : BookmarkSearch :=
  let bundle : Option Bundle :=
    match query .bundle with
    | some bid => if bid = "" then none else findBundle bid
    | none => none
  match bundle with
  | some b => setParams (search_object b) (requestInitial query)
  | none =>
    mkBookmarkSearch
      (fun p =>
        match requestInitial query p with
        | some v => .vstr v
        | none => .vnone)
      none preferences

/-- The `date_filter_start` property: in relative mode with a truthy token
the value is derived from the token (via the clock, here `today`); when the
token yields no start date, or outside relative mode, the stored dict value
is returned.  (A truthy non-string token would raise `TypeError` inside
`re.match`; tokens coming from JSON or query strings are always strings, so
that branch is modelled as the dict fallback and is unreachable in every
claim context.) -/
def date_filter_start_read (today : PyDate) (s : BookmarkSearch) : PyVal :=
  if s.store .date_filter_type = .vstr "relative"
      ∧ (s.store .date_filter_relative_string).truthy = true then
    match s.store .date_filter_relative_string with
    | .vstr tok =>
      match (parse_relative_date_string tok today).1 with
      | some d => .vdate d
      | none => s.store .date_filter_start
    | _ => s.store .date_filter_start
  else s.store .date_filter_start

/-- The `date_filter_end` property (see `date_filter_start_read`). -/
def date_filter_end_read (today : PyDate) (s : BookmarkSearch) : PyVal :=
  if s.store .date_filter_type = .vstr "relative"
      ∧ (s.store .date_filter_relative_string).truthy = true then
    match s.store .date_filter_relative_string with
    | .vstr tok =>
      match (parse_relative_date_string tok today).2 with
      | some d => .vdate d
      | none => s.store .date_filter_end
    | _ => s.store .date_filter_end
  else s.store .date_filter_end

/-- `getattr(s, p)` for the fifteen parameters: the two date properties read
through their getters, everything else through `__dict__`. -/
def effectiveView (today : PyDate) (s : BookmarkSearch) : Param → PyVal := fun p =>
  match p with
  | .date_filter_start => date_filter_start_read today s
  | .date_filter_end => date_filter_end_read today s
  | _ => s.store p

/-- `BookmarkSearch.is_modified(param)`: compares the dict value against the
instance default, except that in relative date mode the two date-range fields
always report unmodified. -/
def is_modified (s : BookmarkSearch) (p : Param) : Bool :=
  if s.store .date_filter_type = .vstr "relative"
      ∧ (p = .date_filter_start ∨ p = .date_filter_end) then false
  else s.store p != s.defaults p

/-- `BookmarkSearch.modified_params`. -/
def modified_params (s : BookmarkSearch) : List Param :=
  paramsList.filter (fun p => is_modified s p)

/-- The per-parameter emit test shared by the bundle branch of
`query_params`: emit only truthy-ish values (`is not None and != ""`) that
differ from the bundle baseline value. -/
def emitCheck (p : Param) (value bvalue : PyVal) : Option (Param × PyVal) :=
  if value ≠ PyVal.vnone ∧ value ≠ PyVal.vstr "" then
    if value ≠ bvalue then some (p, value) else none
  else none

/-- One iteration of the bundle branch of the `query_params` loop: date
parameters read through the getters and are skipped in relative mode, or in
absolute mode when both resolved ends equal the bundle baseline's resolved
ends; every surviving parameter goes through `emitCheck` against the
baseline. -/
def bundleEmitStep (today : PyDate) (s bso : BookmarkSearch) (p : Param) :
    Option (Param × PyVal) :=
  if p = .date_filter_start ∨ p = .date_filter_end then
    if s.store .date_filter_type = .vstr "relative" then none
    else if s.store .date_filter_type = .vstr "absolute" then
      if date_filter_start_read today s = date_filter_start_read today bso
          ∧ date_filter_end_read today s = date_filter_end_read today bso then
        none
      else emitCheck p (effectiveView today s p) (effectiveView today bso p)
    else emitCheck p (effectiveView today s p) (effectiveView today bso p)
  else emitCheck p (s.store p) (bso.store p)

/-- `BookmarkSearch.query_params` as an association list in parameter order.
With a bundle: the bundle id always comes first, then each parameter is
compared against the search re-derived from the bundle alone
(`bundle.search_object`).  Without a bundle: exactly the modified parameters,
with their dict values. -/
def query_params (today : PyDate) (s : BookmarkSearch) : List (Param × PyVal) :=
  match s.bundleRef with
  | some b =>
    (Param.bundle, PyVal.vbundle b.id) ::
      paramsList.filterMap (bundleEmitStep today s (search_object b))
  | none => (modified_params s).map (fun p => (p, s.store p))

/-- Left-pad to two digits (`date.isoformat` month/day formatting). -/
def pad2 (n : Nat) : String :=
  if n < 10 then "0" ++ toString n else toString n

/-- `str(d)` for a date, i.e. `date.isoformat` (years of width four in every
claim context). -/
def isoformat (d : PyDate) : String :=
  toString d.year ++ "-" ++ pad2 d.month ++ "-" ++ pad2 d.day

/-- `str(v)` as applied by URL encoding to an emitted query-parameter value. -/
def pyStr : PyVal → String
  | .vnone => "None"
  | .vstr s => s
  | .vdate d => isoformat d
  | .vbundle id => toString id

/-- `BookmarkSearch.SORT_*` (the closed sort vocabulary). -/
def sortChoices : List String :=
  ["added_asc", "added_desc", "title_asc", "title_desc", "random",
   "deleted_asc", "deleted_desc"]

/-- The `FILTER_SHARED_* / FILTER_UNREAD_* / FILTER_TAGGED_*` vocabulary. -/
def triStateChoices : List String := ["off", "yes", "no"]

/-- `FILTER_DATE_*` (date-filter target vocabulary). -/
def dateByChoices : List String := ["off", "added", "modified", "deleted"]

/-- `FILTER_DATE_TYPE_*` (date-filter mode vocabulary). -/
def dateTypeChoices : List String := ["absolute", "relative"]

/-! ### Structural lemmas about the embedding -/

theorem mem_paramsList (p : Param) : p ∈ paramsList := by
  cases p <;> decide

theorem paramsList_nodup : paramsList.Nodup := by decide

theorem emitCheck_eq_some {pq p : Param} {a b v : PyVal}
    (h : emitCheck pq a b = some (p, v)) :
    p = pq ∧ v = a ∧ a ≠ PyVal.vnone ∧ a ≠ PyVal.vstr "" ∧ a ≠ b := by
  unfold emitCheck at h
  split at h
  case isTrue ht =>
    split at h
    case isTrue hne =>
      simp only [Option.some.injEq, Prod.mk.injEq] at h
      exact ⟨h.1.symm, h.2.symm, ht.1, ht.2, hne⟩
    case isFalse => cases h
  case isFalse => cases h

theorem emitCheck_of_conds {pq : Param} {a b : PyVal} (h1 : a ≠ PyVal.vnone)
    (h2 : a ≠ PyVal.vstr "") (h3 : a ≠ b) : emitCheck pq a b = some (pq, a) := by
  unfold emitCheck
  rw [if_pos ⟨h1, h2⟩, if_pos h3]

theorem emitCheck_none {pq : Param} {a b : PyVal}
    (h : emitCheck pq a b = none) :
    a = PyVal.vnone ∨ a = PyVal.vstr "" ∨ a = b := by
  unfold emitCheck at h
  split at h
  case isTrue ht =>
    split at h
    case isTrue hne => cases h
    case isFalse hne =>
      right; right
      exact not_not.mp hne
  case isFalse ht =>
    rcases Decidable.not_and_iff_or_not.mp ht with h1 | h2
    · exact Or.inl (not_not.mp h1)
    · exact Or.inr (Or.inl (not_not.mp h2))

theorem bundleEmitStep_fst {today : PyDate} {s bso : BookmarkSearch} {pq p : Param}
    {v : PyVal} (h : bundleEmitStep today s bso pq = some (p, v)) : p = pq := by
  unfold bundleEmitStep at h
  split at h
  · split at h
    · cases h
    · split at h
      · split at h
        · cases h
        · exact (emitCheck_eq_some h).1
      · exact (emitCheck_eq_some h).1
  · exact (emitCheck_eq_some h).1

theorem from_request_bundle_eq {query : Param → Option String}
    {findBundle : String → Option Bundle} {prefs : Param → Option PyVal}
    {bid : String} {b : Bundle} (hq : query Param.bundle = some bid)
    (hb : bid ≠ "") (hf : findBundle bid = some b) :
    from_request query findBundle prefs =
      setParams (search_object b) (requestInitial query) := by
  unfold from_request
  rw [hq]
  simp only [if_neg hb, hf]

theorem requestInitial_ne_bundle {query : Param → Option String} {p : Param}
    (hp : p ≠ Param.bundle) :
    requestInitial query p =
      match query p with
      | some v => if v = "" then none else some v
      | none => none := by
  cases p <;> first
    | exact absurd rfl hp
    | rfl

theorem mkBookmarkSearch_store_ne_bundle {userParams : Param → PyVal}
    {bundle : Option Bundle} {preferences : Param → Option PyVal} {p : Param}
    (hp : p ≠ Param.bundle) :
    (mkBookmarkSearch userParams bundle preferences).store p =
      resolveParam (userParams p)
        (match bundle with
          | some b => b.search_params p
          | none => PyVal.vnone)
        ((preferences p).getD (hardDefaults p)) := by
  cases bundle <;> cases p <;> first
    | exact absurd rfl hp
    | rfl

theorem mkBookmarkSearch_store_bundle_some (userParams : Param → PyVal) (b : Bundle)
    (preferences : Param → Option PyVal) :
    (mkBookmarkSearch userParams (some b) preferences).store Param.bundle =
      PyVal.vbundle b.id := rfl

theorem setParams_store (s : BookmarkSearch) (vals : Param → Option String)
    (p : Param) :
    (setParams s vals).store p =
      match vals p with
      | some v => PyVal.vstr v
      | none => s.store p := rfl

theorem setParams_bundleRef (s : BookmarkSearch) (vals : Param → Option String) :
    (setParams s vals).bundleRef = s.bundleRef := rfl

theorem search_object_bundleRef (b : Bundle) : (search_object b).bundleRef = some b := rfl

theorem search_object_store_nondate {b : Bundle} {p : Param}
    (hp1 : p ≠ Param.bundle) (hp2 : p ≠ Param.date_filter_start)
    (hp3 : p ≠ Param.date_filter_end) :
    (search_object b).store p =
      resolveParam (b.search_params p) (b.search_params p) (hardDefaults p) := by
  cases p <;> first
    | exact absurd rfl hp1
    | exact absurd rfl hp2
    | exact absurd rfl hp3
    | rfl

theorem search_object_store_start (b : Bundle) :
    (search_object b).store Param.date_filter_start =
      resolveParam (parseDateParam (b.search_params Param.date_filter_start))
        (b.search_params Param.date_filter_start) PyVal.vnone := rfl

theorem search_object_store_end (b : Bundle) :
    (search_object b).store Param.date_filter_end =
      resolveParam (parseDateParam (b.search_params Param.date_filter_end))
        (b.search_params Param.date_filter_end) PyVal.vnone := rfl

/-- In relative date mode neither date-range parameter is ever emitted by
`query_params` (both branches). -/
theorem query_params_no_date_params (today : PyDate) (s : BookmarkSearch)
    (hrel : s.store Param.date_filter_type = PyVal.vstr "relative") (p : Param)
    (hp : p = Param.date_filter_start ∨ p = Param.date_filter_end) (v : PyVal) :
    (p, v) ∉ query_params today s := by
  intro hmem
  unfold query_params at hmem
  rcases hsb : s.bundleRef with _ | b
  · rw [hsb] at hmem
    rcases List.mem_map.mp hmem with ⟨pq, hq, heq⟩
    have hq2 := (List.mem_filter.mp hq).2
    have hqp : pq = p := congrArg Prod.fst heq
    subst hqp
    unfold is_modified at hq2
    rw [if_pos ⟨hrel, hp⟩] at hq2
    cases hq2
  · rw [hsb] at hmem
    rcases List.mem_cons.mp hmem with heq | hmem2
    · have h1 : p = Param.bundle := congrArg Prod.fst heq
      rcases hp with rfl | rfl <;> cases h1
    · rcases List.mem_filterMap.mp hmem2 with ⟨pq, hqmem, hf⟩
      have hpq := bundleEmitStep_fst hf
      rw [← hpq] at hf
      unfold bundleEmitStep at hf
      rw [if_pos hp, if_pos hrel] at hf
      cases hf

/-! ### Claim C1 -/

/-- C1 counterexample.  The claim requires the stored-preference tier to sit
between the bundle tier and the hard defaults.  But `from_request` with a
bundle attached builds the search from `bundle.search_object` and never
passes the preferences along: with a bundle that does not carry `sort`, no
explicit `sort`, and a stored preference `sort = title_asc`, the resolved
sort is the hard default `added_desc`, not the preference value. -/
theorem C1_precedence_counterexample :
    (from_request
        (fun p => match p with | .bundle => some "7" | _ => none)
        (fun bid => if bid = "7" then some ⟨7, fun _ => PyVal.vnone⟩ else none)
        (fun p => match p with
          | .sort => some (PyVal.vstr "title_asc")
          | _ => none)).store Param.sort = PyVal.vstr "added_desc"
    ∧ (⟨7, fun _ => PyVal.vnone⟩ : Bundle).search_params Param.sort = PyVal.vnone
    ∧ PyVal.vstr "added_desc" ≠ PyVal.vstr "title_asc" := by
  decide

/-- C1 (amended).  Per-field precedence holds for direct construction
(`__init__`): explicit non-None value, then the bundle's stored value when
truthy (non-empty), then the stored preference, then the hard default — in
particular a preference never influences a field the bundle carries with a
truthy value.  Resolution through `from_request` with a bundle, however,
bypasses stored preferences for all fields: explicit truthy query values
override the search re-derived from the bundle alone, and everything else
(carried or not) comes from that bundle-derived search, never from the
preferences.  The two concrete sort scenarios of the claim hold: a bundle
storing `sort = title_asc` with no explicit sort resolves to `title_asc`, and
an explicit `sort = random` wins over the bundle. -/
theorem C1_precedence_resolution :
    (∀ (userParams : Param → PyVal) (b : Bundle) (preferences : Param → Option PyVal)
        (p : Param), p ≠ Param.bundle →
      (mkBookmarkSearch userParams (some b) preferences).store p =
        if userParams p ≠ PyVal.vnone then userParams p
        else if (b.search_params p).truthy = true then b.search_params p
        else (preferences p).getD (hardDefaults p))
    ∧ (∀ (userParams : Param → PyVal) (preferences : Param → Option PyVal) (p : Param),
        p ≠ Param.bundle →
      (mkBookmarkSearch userParams none preferences).store p =
        if userParams p ≠ PyVal.vnone then userParams p
        else (preferences p).getD (hardDefaults p))
    ∧ (∀ (query : Param → Option String) (findBundle : String → Option Bundle)
        (preferences : Param → Option PyVal) (bid : String) (b : Bundle),
        query Param.bundle = some bid → bid ≠ "" → findBundle bid = some b →
        ∀ p : Param,
          (from_request query findBundle preferences).store p =
            match requestInitial query p with
            | some v => PyVal.vstr v
            | none => (search_object b).store p)
    ∧ (from_request
        (fun p => match p with | .bundle => some "5" | _ => none)
        (fun bid => if bid = "5"
          then some ⟨5, fun p => match p with
            | .sort => PyVal.vstr "title_asc"
            | _ => PyVal.vnone⟩
          else none)
        (fun _ => none)).store Param.sort = PyVal.vstr "title_asc"
    ∧ (from_request
        (fun p => match p with | .bundle => some "5" | .sort => some "random" | _ => none)
        (fun bid => if bid = "5"
          then some ⟨5, fun p => match p with
            | .sort => PyVal.vstr "title_asc"
            | _ => PyVal.vnone⟩
          else none)
        (fun _ => none)).store Param.sort = PyVal.vstr "random" := by
  refine ⟨?_, ?_, ?_, by decide, by decide⟩
  · intro userParams b preferences p hp
    rw [mkBookmarkSearch_store_ne_bundle hp]
    rfl
  · intro userParams preferences p hp
    rw [mkBookmarkSearch_store_ne_bundle hp]
    rfl
  · intro query findBundle preferences bid b hq hb hf p
    rw [from_request_bundle_eq hq hb hf]
    exact setParams_store _ _ p

/-- C1 witness: the precedence theorem applied at a concrete bundle carrying
`q = "x"` with no explicit value and no preference. -/
theorem C1_precedence_witness :
    (mkBookmarkSearch (fun _ => PyVal.vnone)
        (some ⟨3, fun p => match p with | .q => PyVal.vstr "x" | _ => PyVal.vnone⟩)
        (fun _ => none)).store Param.q = PyVal.vstr "x" := by
  have h := C1_precedence_resolution.1 (fun _ => PyVal.vnone)
      ⟨3, fun p => match p with | .q => PyVal.vstr "x" | _ => PyVal.vnone⟩
      (fun _ => none) Param.q (by decide)
  rw [h]
  decide

/-! ### Claim C8 -/

/-- C8 counterexample.  `__init__` performs no vocabulary validation: the
unrecognized sort value `banana` supplied at construction is silently stored
on the object, contradicting the claim that such values are rejected or
ignored. -/
theorem C8_enum_vocabulary_counterexample :
    (mkBookmarkSearch
        (fun p => match p with | .sort => PyVal.vstr "banana" | _ => PyVal.vnone)
        none (fun _ => none)).store Param.sort = PyVal.vstr "banana"
    ∧ "banana" ∉ sortChoices
    ∧ (mkBookmarkSearch
        (fun p => match p with
          | .date_filter_type => PyVal.vstr "sometimes"
          | _ => PyVal.vnone)
        none (fun _ => none)).store Param.date_filter_type = PyVal.vstr "sometimes"
    ∧ "sometimes" ∉ dateTypeChoices := by
  decide

/-- C8 (amended): the constructor stores any supplied non-None value
verbatim — enum fields included — without checking it against the closed
vocabulary; enforcement exists only in the form layer
(`BookmarkSearchForm` choice fields), not at construction. -/
theorem C8_constructor_stores_verbatim :
    ∀ (userParams : Param → PyVal) (bundle : Option Bundle)
      (preferences : Param → Option PyVal) (p : Param),
      p ≠ Param.bundle → userParams p ≠ PyVal.vnone →
      (mkBookmarkSearch userParams bundle preferences).store p = userParams p := by
  intro userParams bundle preferences p hp hv
  rw [mkBookmarkSearch_store_ne_bundle hp]
  unfold resolveParam
  rw [if_pos hv]

/-- C8 witness: the amended theorem applied at a concrete out-of-vocabulary
sort value. -/
theorem C8_enum_vocabulary_witness :
    (mkBookmarkSearch
        (fun p => match p with | .unread => PyVal.vstr "maybe" | _ => PyVal.vnone)
        none (fun _ => none)).store Param.unread = PyVal.vstr "maybe" := by
  have h := C8_constructor_stores_verbatim
      (fun p => match p with | .unread => PyVal.vstr "maybe" | _ => PyVal.vnone)
      none (fun _ => none) Param.unread (by decide) (by decide)
  rw [h]

/-! ### Claim C6 -/

/-- A search in relative date mode whose token does not parse, constructed
with an independently stored start date. -/
def badTokenSearch : BookmarkSearch :=
  mkBookmarkSearch
    (fun p => match p with
      | .date_filter_type => PyVal.vstr "relative"
      | .date_filter_relative_string => PyVal.vstr "nonsense"
      | .date_filter_start => PyVal.vdate ⟨2024, 1, 1⟩
      | _ => PyVal.vnone)
    none (fun _ => none)

/-- A search in relative date mode with a parseable token. -/
def relTokenSearch : BookmarkSearch :=
  mkBookmarkSearch
    (fun p => match p with
      | .date_filter_type => PyVal.vstr "relative"
      | .date_filter_relative_string => PyVal.vstr "last_7_days"
      | _ => PyVal.vnone)
    none (fun _ => none)

/-- C6 counterexample.  In relative mode with the unparseable token
`nonsense`, the `date_filter_start` property falls back to the independently
stored dict value (here the stored date 2024-01-01) — so a read is *not*
always derived from the token, contradicting the claim. -/
theorem C6_relative_derivation_counterexample :
    badTokenSearch.store Param.date_filter_type = PyVal.vstr "relative"
    ∧ (parse_relative_date_string "nonsense" ⟨2024, 6, 10⟩).1 = none
    ∧ badTokenSearch.store Param.date_filter_start = PyVal.vdate ⟨2024, 1, 1⟩
    ∧ date_filter_start_read ⟨2024, 6, 10⟩ badTokenSearch = PyVal.vdate ⟨2024, 1, 1⟩ := by
  decide

/-- C6 (amended): in relative date mode, reads of `date_filter_start` /
`date_filter_end` return the token-derived dates whenever the token is a
non-empty string that parses to a range; when the token yields no range the
read falls back to the stored dict value.  Independently of the token, the
two fields are never reported as modified and are never emitted by
`query_params`. -/
theorem C6_relative_mode_derivation (today : PyDate) (s : BookmarkSearch)
    (hrel : s.store Param.date_filter_type = PyVal.vstr "relative") :
    (∀ tok : String, s.store Param.date_filter_relative_string = PyVal.vstr tok →
        tok ≠ "" →
        (∀ d, (parse_relative_date_string tok today).1 = some d →
            date_filter_start_read today s = PyVal.vdate d)
        ∧ (∀ d, (parse_relative_date_string tok today).2 = some d →
            date_filter_end_read today s = PyVal.vdate d)
        ∧ ((parse_relative_date_string tok today).1 = none →
            date_filter_start_read today s = s.store Param.date_filter_start)
        ∧ ((parse_relative_date_string tok today).2 = none →
            date_filter_end_read today s = s.store Param.date_filter_end))
    ∧ is_modified s Param.date_filter_start = false
    ∧ is_modified s Param.date_filter_end = false
    ∧ (∀ v, (Param.date_filter_start, v) ∉ query_params today s)
    ∧ (∀ v, (Param.date_filter_end, v) ∉ query_params today s) := by
  refine ⟨?_, ?_, ?_, ?_, ?_⟩
  · intro tok htok hne
    have hcond : s.store Param.date_filter_type = PyVal.vstr "relative"
        ∧ (s.store Param.date_filter_relative_string).truthy = true := by
      refine ⟨hrel, ?_⟩
      rw [htok]
      simpa [PyVal.truthy] using hne
    refine ⟨?_, ?_, ?_, ?_⟩
    · intro d hd
      unfold date_filter_start_read
      rw [if_pos hcond]
      simp only [htok, hd]
    · intro d hd
      unfold date_filter_end_read
      rw [if_pos hcond]
      simp only [htok, hd]
    · intro hd
      unfold date_filter_start_read
      rw [if_pos hcond]
      simp only [htok, hd]
    · intro hd
      unfold date_filter_end_read
      rw [if_pos hcond]
      simp only [htok, hd]
  · unfold is_modified
    rw [if_pos ⟨hrel, Or.inl rfl⟩]
  · unfold is_modified
    rw [if_pos ⟨hrel, Or.inr rfl⟩]
  · exact fun v => query_params_no_date_params today s hrel _ (Or.inl rfl) v
  · exact fun v => query_params_no_date_params today s hrel _ (Or.inr rfl) v

/-- C6 witness: the amended theorem applied to a concrete relative-mode
search with token `last_7_days` on 2024-06-10. -/
theorem C6_relative_mode_witness :
    date_filter_start_read ⟨2024, 6, 10⟩ relTokenSearch = PyVal.vdate ⟨2024, 6, 4⟩
    ∧ is_modified relTokenSearch Param.date_filter_start = false := by
  have h := C6_relative_mode_derivation ⟨2024, 6, 10⟩ relTokenSearch (by decide)
  exact ⟨(h.1 "last_7_days" (by decide) (by decide)).1 ⟨2024, 6, 4⟩ (by decide), h.2.1⟩

/-! ### Claim C2: infrastructure -/

/-- Is the value a Python string? -/
def PyVal.isStr : PyVal → Bool
  | .vstr _ => true
  | _ => false

/-- A well-formed bundle row: `search_params` is a JSON document, so its
values are strings or null, and it carries no `bundle` key (a `bundle` key
would collide with the `bundle=self` keyword in `search_object`). -/
def bundleWF (b : Bundle) : Prop :=
  b.search_params Param.bundle = PyVal.vnone ∧
    ∀ p, (b.search_params p = PyVal.vnone ∨ (b.search_params p).isStr = true)

/-- Does the relative token of `s` derive a date range (non-empty string
token that parses to two dates)? -/
def derivesRange (today : PyDate) (s : BookmarkSearch) : Bool :=
  match s.store Param.date_filter_relative_string with
  | .vstr tok =>
    tok != "" && (parse_relative_date_string tok today).1.isSome
      && (parse_relative_date_string tok today).2.isSome
  | _ => false

/-- Re-reading the serialized query parameters as a request query dict:
each emitted value is stringified by the URL encoding (`str`). -/
def emittedQuery (qp : List (Param × PyVal)) : Param → Option String := fun p =>
  (qp.find? (fun kv => kv.1 == p)).map (fun kv => pyStr kv.2)

theorem query_params_bundle_eq {today : PyDate} {s : BookmarkSearch} {b : Bundle}
    (h : s.bundleRef = some b) :
    query_params today s =
      (Param.bundle, PyVal.vbundle b.id) ::
        paramsList.filterMap (bundleEmitStep today s (search_object b)) := by
  unfold query_params
  rw [h]

theorem effectiveView_nondate {today : PyDate} {x : BookmarkSearch} {p : Param}
    (h1 : p ≠ Param.date_filter_start) (h2 : p ≠ Param.date_filter_end) :
    effectiveView today x p = x.store p := by
  cases p <;> first
    | exact absurd rfl h1
    | exact absurd rfl h2
    | rfl

theorem start_read_congr {today : PyDate} {s1 s2 : BookmarkSearch}
    (ht : s1.store Param.date_filter_type = s2.store Param.date_filter_type)
    (hk : s1.store Param.date_filter_relative_string
      = s2.store Param.date_filter_relative_string)
    (hv : s1.store Param.date_filter_start = s2.store Param.date_filter_start) :
    date_filter_start_read today s1 = date_filter_start_read today s2 := by
  unfold date_filter_start_read
  rw [ht, hk, hv]

theorem end_read_congr {today : PyDate} {s1 s2 : BookmarkSearch}
    (ht : s1.store Param.date_filter_type = s2.store Param.date_filter_type)
    (hk : s1.store Param.date_filter_relative_string
      = s2.store Param.date_filter_relative_string)
    (hv : s1.store Param.date_filter_end = s2.store Param.date_filter_end) :
    date_filter_end_read today s1 = date_filter_end_read today s2 := by
  unfold date_filter_end_read
  rw [ht, hk, hv]

theorem start_read_cases (today : PyDate) (x : BookmarkSearch) :
    (∃ d, date_filter_start_read today x = PyVal.vdate d)
    ∨ date_filter_start_read today x = x.store Param.date_filter_start := by
  unfold date_filter_start_read
  split
  · rcases h : x.store Param.date_filter_relative_string with _ | tok | d | i
    · right; simp only [h]
    · simp only [h]
      rcases h2 : (parse_relative_date_string tok today).1 with _ | d
      · right; simp only [h2]
      · left; exact ⟨d, by simp only [h2]⟩
    · right; simp only [h]
    · right; simp only [h]
  · right; rfl

theorem end_read_cases (today : PyDate) (x : BookmarkSearch) :
    (∃ d, date_filter_end_read today x = PyVal.vdate d)
    ∨ date_filter_end_read today x = x.store Param.date_filter_end := by
  unfold date_filter_end_read
  split
  · rcases h : x.store Param.date_filter_relative_string with _ | tok | d | i
    · right; simp only [h]
    · simp only [h]
      rcases h2 : (parse_relative_date_string tok today).2 with _ | d
      · right; simp only [h2]
      · left; exact ⟨d, by simp only [h2]⟩
    · right; simp only [h]
    · right; simp only [h]
  · right; rfl

theorem bundleEmitStep_nondate {today : PyDate} {s bso : BookmarkSearch} {p : Param}
    (h1 : p ≠ Param.date_filter_start) (h2 : p ≠ Param.date_filter_end) :
    bundleEmitStep today s bso p = emitCheck p (s.store p) (bso.store p) := by
  unfold bundleEmitStep
  rw [if_neg]
  rintro (rfl | rfl)
  · exact h1 rfl
  · exact h2 rfl

theorem bundleEmitStep_relative {today : PyDate} {s bso : BookmarkSearch} {p : Param}
    (hp : p = Param.date_filter_start ∨ p = Param.date_filter_end)
    (hrel : s.store Param.date_filter_type = PyVal.vstr "relative") :
    bundleEmitStep today s bso p = none := by
  unfold bundleEmitStep
  rw [if_pos hp, if_pos hrel]

theorem find_filterMap_not_mem {f : Param → Option (Param × PyVal)}
    (hf : ∀ a r, f a = some r → r.1 = a) :
    ∀ (l : List Param) (p : Param), p ∉ l →
      (l.filterMap f).find? (fun kv => kv.1 == p) = none := by
  intro l
  induction l with
  | nil => intro p _; rfl
  | cons a t ih =>
    intro p hp
    have hpa : p ≠ a := fun h => hp (h ▸ List.mem_cons_self a t)
    have hpt : p ∉ t := fun h => hp (List.mem_cons_of_mem a h)
    rw [List.filterMap_cons]
    rcases hfa : f a with _ | r
    · exact ih p hpt
    · rw [List.find?_cons_of_neg, ih p hpt]
      have hr1 : r.1 = a := hf a r hfa
      simp only [hr1, beq_iff_eq]
      exact fun h => hpa h.symm

theorem find_filterMap_mem {f : Param → Option (Param × PyVal)}
    (hf : ∀ a r, f a = some r → r.1 = a) :
    ∀ (l : List Param), l.Nodup → ∀ p ∈ l,
      (l.filterMap f).find? (fun kv => kv.1 == p) = f p := by
  intro l
  induction l with
  | nil => intro _ p hp; cases hp
  | cons a t ih =>
    intro hnd p hp
    have hnd2 := List.nodup_cons.mp hnd
    rw [List.filterMap_cons]
    rcases List.mem_cons.mp hp with rfl | hpt
    · rcases hfa : f p with _ | r
      · exact find_filterMap_not_mem hf t p hnd2.1
      · show List.find? (fun kv => kv.1 == p) (r :: List.filterMap f t) = some r
        have hr1 : r.1 = p := hf p r hfa
        have hpos : (fun (kv : Param × PyVal) => kv.1 == p) r = true := by simp [hr1]
        rw [@List.find?_cons_of_pos _ (fun kv => kv.1 == p) r (List.filterMap f t) hpos]
    · have hpa : p ≠ a := fun h => hnd2.1 (h ▸ hpt)
      rcases hfa : f a with _ | r
      · exact ih hnd2.2 p hpt
      · show List.find? (fun kv => kv.1 == p) (r :: List.filterMap f t) = f p
        have hr1 : r.1 = a := hf a r hfa
        have hneg : ¬ ((fun (kv : Param × PyVal) => kv.1 == p) r = true) := by
          simp only [hr1, beq_iff_eq]
          exact fun h => hpa h.symm
        rw [@List.find?_cons_of_neg _ (fun kv => kv.1 == p) r (List.filterMap f t) hneg]
        exact ih hnd2.2 p hpt

theorem emittedQuery_cons_ne {key : Param} {v0 : PyVal} {rest : List (Param × PyVal)}
    {p : Param} (h : key ≠ p) :
    emittedQuery ((key, v0) :: rest) p = emittedQuery rest p := by
  unfold emittedQuery
  rw [List.find?_cons_of_neg]
  simp [h]

theorem emittedQuery_head (key : Param) (v0 : PyVal) (rest : List (Param × PyVal)) :
    emittedQuery ((key, v0) :: rest) key = some (pyStr v0) := by
  unfold emittedQuery
  rw [List.find?_cons_of_pos] <;> simp

theorem requestInitial_none_of_none {query : Param → Option String} {p : Param}
    (hq : query p = none) : requestInitial query p = none := by
  cases p <;> simp [requestInitial, hq]

theorem requestInitial_of_some {query : Param → Option String} {p : Param} {w : String}
    (hp : p ≠ Param.bundle) (hq : query p = some w) :
    requestInitial query p = if w = "" then none else some w := by
  cases p <;> first
    | exact absurd rfl hp
    | simp [requestInitial, hq]

theorem requestInitial_bundle (query : Param → Option String) :
    requestInitial query Param.bundle = none := rfl

theorem requestInitial_some {query : Param → Option String} {p : Param} {v : String}
    (h : requestInitial query p = some v) : v ≠ "" := by
  by_cases hp : p = Param.bundle
  · subst hp
    exact Option.noConfusion h
  · rcases hq : query p with _ | w
    · rw [requestInitial_none_of_none hq] at h
      exact Option.noConfusion h
    · rw [requestInitial_of_some hp hq] at h
      by_cases hw : w = ""
      · rw [if_pos hw] at h
        exact Option.noConfusion h
      · rw [if_neg hw] at h
        injection h with h2
        exact h2 ▸ hw

theorem start_read_not_relative {today : PyDate} {x : BookmarkSearch}
    (h : x.store Param.date_filter_type ≠ PyVal.vstr "relative") :
    date_filter_start_read today x = x.store Param.date_filter_start := by
  unfold date_filter_start_read
  rw [if_neg]
  rintro ⟨h1, _⟩
  exact h h1

theorem end_read_not_relative {today : PyDate} {x : BookmarkSearch}
    (h : x.store Param.date_filter_type ≠ PyVal.vstr "relative") :
    date_filter_end_read today x = x.store Param.date_filter_end := by
  unfold date_filter_end_read
  rw [if_neg]
  rintro ⟨h1, _⟩
  exact h h1

theorem effectiveView_start (today : PyDate) (x : BookmarkSearch) :
    effectiveView today x Param.date_filter_start = date_filter_start_read today x := rfl

theorem effectiveView_end (today : PyDate) (x : BookmarkSearch) :
    effectiveView today x Param.date_filter_end = date_filter_end_read today x := rfl

theorem bundleEmitStep_some {today : PyDate} {s bso : BookmarkSearch} {p p1 : Param}
    {v : PyVal} (h : bundleEmitStep today s bso p = some (p1, v)) :
    p1 = p ∧ v ≠ PyVal.vnone ∧ v ≠ PyVal.vstr "" := by
  unfold bundleEmitStep at h
  split at h
  · split at h
    · cases h
    · split at h
      · split at h
        · cases h
        · obtain ⟨h1, h2, h3, h4, _⟩ := emitCheck_eq_some h
          exact ⟨h1, by rw [h2]; exact h3, by rw [h2]; exact h4⟩
      · obtain ⟨h1, h2, h3, h4, _⟩ := emitCheck_eq_some h
        exact ⟨h1, by rw [h2]; exact h3, by rw [h2]; exact h4⟩
  · obtain ⟨h1, h2, h3, h4, _⟩ := emitCheck_eq_some h
    exact ⟨h1, by rw [h2]; exact h3, by rw [h2]; exact h4⟩

theorem bundleEmitStep_some_val {today : PyDate} {s bso : BookmarkSearch}
    {p p1 : Param} {v : PyVal} (h : bundleEmitStep today s bso p = some (p1, v)) :
    ((p = Param.date_filter_start ∨ p = Param.date_filter_end) →
      v = effectiveView today s p)
    ∧ (¬(p = Param.date_filter_start ∨ p = Param.date_filter_end) → v = s.store p) := by
  unfold bundleEmitStep at h
  split at h
  case isTrue hdp =>
    refine ⟨fun _ => ?_, fun hc => absurd hdp hc⟩
    split at h
    · cases h
    · split at h
      · split at h
        · cases h
        · exact (emitCheck_eq_some h).2.1
      · exact (emitCheck_eq_some h).2.1
  case isFalse hdp =>
    exact ⟨fun hc => absurd hc hdp, fun _ => (emitCheck_eq_some h).2.1⟩

/-- Round-trip core: a search obtained by overriding a bundle baseline with
truthy request values, re-parsed from its own serialized `query_params`
(together with the bundle id), resolves to the same effective search —
provided (a) in relative mode either the token derives a range or no
explicit start/end override was given, and (b) every emitted value is a
string.  `hs`/`hs2` present the two searches as baseline-plus-overrides, as
`from_request` produces them. -/
theorem roundtrip_effective (today : PyDate) (b : Bundle)
    (query : Param → Option String) (s s2 : BookmarkSearch)
    (hs : ∀ p, s.store p =
      match requestInitial query p with
      | some v => PyVal.vstr v
      | none => (search_object b).store p)
    (hbr : s.bundleRef = some b)
    (hs2 : ∀ p, s2.store p =
      match requestInitial (emittedQuery (query_params today s)) p with
      | some v => PyVal.vstr v
      | none => (search_object b).store p)
    (hrel : s.store Param.date_filter_type = PyVal.vstr "relative" →
      derivesRange today s = true
      ∨ (requestInitial query Param.date_filter_start = none
        ∧ requestInitial query Param.date_filter_end = none))
    (hstr : ∀ p v, (p, v) ∈ query_params today s →
      p = Param.bundle ∨ PyVal.isStr v = true) :
    ∀ p, effectiveView today s2 p = effectiveView today s p := by
  have hqp := @query_params_bundle_eq today _ _ hbr
  -- reading the serialized query for non-bundle parameters
  have hq2 : ∀ p, p ≠ Param.bundle →
      emittedQuery (query_params today s) p
        = (bundleEmitStep today s (search_object b) p).map (fun kv => pyStr kv.2) := by
    intro p hp
    rw [hqp, emittedQuery_cons_ne (fun h => hp h.symm)]
    unfold emittedQuery
    rw [find_filterMap_mem (fun a r hr => bundleEmitStep_fst hr) paramsList
      paramsList_nodup p (mem_paramsList p)]
  -- every emitted (non-bundle) value is a non-empty string
  have hstep_str : ∀ p p1 v, p ≠ Param.bundle →
      bundleEmitStep today s (search_object b) p = some (p1, v) →
      ∃ str, v = PyVal.vstr str ∧ str ≠ "" := by
    intro p p1 v hp hstep
    have hmem : (p1, v) ∈ query_params today s := by
      rw [hqp]
      exact List.mem_cons_of_mem _ (List.mem_filterMap.mpr ⟨p, mem_paramsList p, hstep⟩)
    have hsome := bundleEmitStep_some hstep
    rcases hstr p1 v hmem with hb | hisstr
    · exact absurd (hsome.1.symm.trans hb) hp
    · cases v with
      | vstr str =>
        exact ⟨str, rfl, fun he => hsome.2.2 (by rw [he])⟩
      | vnone => cases hisstr
      | vdate d => cases hisstr
      | vbundle i => cases hisstr
  -- the re-parsed store, expressed through the emit step
  have hstore2 : ∀ p, p ≠ Param.bundle →
      s2.store p =
        match bundleEmitStep today s (search_object b) p with
        | some kv => PyVal.vstr (pyStr kv.2)
        | none => (search_object b).store p := by
    intro p hp
    rw [hs2 p]
    rcases hstep : bundleEmitStep today s (search_object b) p with _ | kv
    · rw [requestInitial_none_of_none (by rw [hq2 p hp, hstep]; rfl)]
    · obtain ⟨p1, v⟩ := kv
      obtain ⟨str, rfl, hstrne⟩ := hstep_str p p1 v hp hstep
      have hq2p : emittedQuery (query_params today s) p = some str := by
        rw [hq2 p hp, hstep]
        rfl
      rw [requestInitial_of_some hp hq2p, if_neg hstrne]
      rfl
  -- store equality away from the date range and the bundle key
  have hstore_eq : ∀ p, p ≠ Param.bundle → p ≠ Param.date_filter_start →
      p ≠ Param.date_filter_end → s2.store p = s.store p := by
    intro p hp h1 h2
    rw [hstore2 p hp]
    have hstepnd := @bundleEmitStep_nondate today s (search_object b) _ h1 h2
    rcases hec : emitCheck p (s.store p) ((search_object b).store p) with _ | kv
    · rw [hstepnd, hec]
      have hc := emitCheck_none hec
      rcases hinit : requestInitial query p with _ | w
      · have hsp := hs p
        rw [hinit] at hsp
        exact hsp.symm
      · have hsv : s.store p = PyVal.vstr w := by rw [hs p, hinit]
        have hw := requestInitial_some hinit
        rcases hc with h | h | h
        · rw [hsv] at h; cases h
        · rw [hsv] at h
          injection h with h3
          exact absurd h3 hw
        · exact h.symm
    · obtain ⟨p1, v⟩ := kv
      have hstep : bundleEmitStep today s (search_object b) p = some (p1, v) := by
        rw [hstepnd, hec]
      rw [hstepnd, hec]
      obtain ⟨str, rfl, _⟩ := hstep_str p p1 v hp hstep
      obtain ⟨_, hval, _, _, _⟩ := emitCheck_eq_some hec
      rw [← hval]
      rfl
  have htype_eq : s2.store Param.date_filter_type = s.store Param.date_filter_type :=
    hstore_eq Param.date_filter_type (by decide) (by decide) (by decide)
  have htok_eq : s2.store Param.date_filter_relative_string
      = s.store Param.date_filter_relative_string :=
    hstore_eq Param.date_filter_relative_string (by decide) (by decide) (by decide)
  -- date-range stores and getters
  have hdates : date_filter_start_read today s2 = date_filter_start_read today s
      ∧ date_filter_end_read today s2 = date_filter_end_read today s := by
    by_cases hreltype : s.store Param.date_filter_type = PyVal.vstr "relative"
    · have hstepS := @bundleEmitStep_relative today s (search_object b) _ (Or.inl rfl) hreltype
      have hstepE := @bundleEmitStep_relative today s (search_object b) _ (Or.inr rfl) hreltype
      have hs2S : s2.store Param.date_filter_start
          = (search_object b).store Param.date_filter_start := by
        rw [hstore2 _ (by decide), hstepS]
      have hs2E : s2.store Param.date_filter_end
          = (search_object b).store Param.date_filter_end := by
        rw [hstore2 _ (by decide), hstepE]
      rcases hrel hreltype with hder | ⟨hinits, hinite⟩
      · unfold derivesRange at hder
        rcases htokv : s.store Param.date_filter_relative_string with _ | tok | d | i
        · rw [htokv] at hder
          exact Bool.noConfusion hder
        · rw [htokv] at hder
          simp only [Bool.and_eq_true, bne_iff_ne, ne_eq, Option.isSome_iff_exists] at hder
          obtain ⟨⟨htokne, d1, hd1⟩, d2, hd2⟩ := hder
          have hgetter : ∀ x : BookmarkSearch,
              x.store Param.date_filter_type = PyVal.vstr "relative" →
              x.store Param.date_filter_relative_string = PyVal.vstr tok →
              date_filter_start_read today x = PyVal.vdate d1
              ∧ date_filter_end_read today x = PyVal.vdate d2 := by
            intro x hxt hxk
            have hcond : x.store Param.date_filter_type = PyVal.vstr "relative"
                ∧ (x.store Param.date_filter_relative_string).truthy = true := by
              refine ⟨hxt, ?_⟩
              rw [hxk]
              simpa [PyVal.truthy] using htokne
            constructor
            · unfold date_filter_start_read
              rw [if_pos hcond]
              simp only [hxk, hd1]
            · unfold date_filter_end_read
              rw [if_pos hcond]
              simp only [hxk, hd2]
          have hg1 := hgetter s hreltype htokv
          have hg2 := hgetter s2 (htype_eq.trans hreltype) (htok_eq.trans htokv)
          exact ⟨hg2.1.trans hg1.1.symm, hg2.2.trans hg1.2.symm⟩
        · rw [htokv] at hder
          exact Bool.noConfusion hder
        · rw [htokv] at hder
          exact Bool.noConfusion hder
      · have hsS : s.store Param.date_filter_start
            = (search_object b).store Param.date_filter_start := by
          rw [hs _, hinits]
        have hsE : s.store Param.date_filter_end
            = (search_object b).store Param.date_filter_end := by
          rw [hs _, hinite]
        exact ⟨start_read_congr htype_eq htok_eq (hs2S.trans hsS.symm),
          end_read_congr htype_eq htok_eq (hs2E.trans hsE.symm)⟩
    · -- non-relative: getters read the stores on both sides
      have hrel2 : s2.store Param.date_filter_type ≠ PyVal.vstr "relative" := by
        rw [htype_eq]; exact hreltype
      -- a date store survives the round trip
      have hdstore : ∀ p, (p = Param.date_filter_start ∨ p = Param.date_filter_end) →
          date_filter_start_read today s = s.store Param.date_filter_start →
          s2.store p = s.store p := by
        intro p hdp _
        rw [hstore2 p (by rcases hdp with rfl | rfl <;> decide)]
        -- value seen by the emit step: the getter, equal to the store here
        have heff : effectiveView today s p = s.store p := by
          rcases hdp with rfl | rfl
          · rw [effectiveView_start]
            exact start_read_not_relative hreltype
          · rw [effectiveView_end]
            exact end_read_not_relative hreltype
        have hinit_store : requestInitial query p = none → s.store p = (search_object b).store p := by
          intro hi
          rw [hs p, hi]
        have hstore_cases : s.store p = (search_object b).store p
            ∨ ∃ w, s.store p = PyVal.vstr w ∧ w ≠ "" := by
          rcases hinit : requestInitial query p with _ | w
          · exact Or.inl (hinit_store hinit)
          · refine Or.inr ⟨w, ?_, requestInitial_some hinit⟩
            rw [hs p, hinit]
        have heffbso_cases :
            (∃ d, effectiveView today (search_object b) p = PyVal.vdate d)
            ∨ effectiveView today (search_object b) p = (search_object b).store p := by
          rcases hdp with rfl | rfl
          · rw [effectiveView_start]
            exact start_read_cases today (search_object b)
          · rw [effectiveView_end]
            exact end_read_cases today (search_object b)
        rcases hstep : bundleEmitStep today s (search_object b) p with _ | kv
        · -- not emitted: show the baseline value equals the search's value
          -- from the emit-step analysis
          have hnone : effectiveView today s p = PyVal.vnone
              ∨ effectiveView today s p = PyVal.vstr ""
              ∨ effectiveView today s p = effectiveView today (search_object b) p
              ∨ (date_filter_start_read today s = date_filter_start_read today (search_object b)
                ∧ date_filter_end_read today s = date_filter_end_read today (search_object b)) := by
            unfold bundleEmitStep at hstep
            rw [if_pos hdp, if_neg hreltype] at hstep
            split at hstep
            · split at hstep
              case isTrue hpair => exact Or.inr (Or.inr (Or.inr hpair))
              case isFalse =>
                rcases emitCheck_none hstep with h | h | h
                · exact Or.inl h
                · exact Or.inr (Or.inl h)
                · exact Or.inr (Or.inr (Or.inl h))
            · rcases emitCheck_none hstep with h | h | h
              · exact Or.inl h
              · exact Or.inr (Or.inl h)
              · exact Or.inr (Or.inr (Or.inl h))
          -- reduce the pair case to a per-field equation
          have hnone2 : s.store p = PyVal.vnone ∨ s.store p = PyVal.vstr ""
              ∨ s.store p = effectiveView today (search_object b) p := by
            rw [heff] at hnone
            rcases hnone with h | h | h | ⟨hpS, hpE⟩
            · exact Or.inl h
            · exact Or.inr (Or.inl h)
            · exact Or.inr (Or.inr h)
            · right; right
              rcases hdp with rfl | rfl
              · rw [effectiveView_start, ← hpS]
                exact (start_read_not_relative hreltype).symm
              · rw [effectiveView_end, ← hpE]
                exact (end_read_not_relative hreltype).symm
          rcases hstore_cases with hbase | ⟨w, hw, hwne⟩
          · exact hbase.symm
          · rcases hnone2 with h | h | h
            · rw [hw] at h; cases h
            · rw [hw] at h
              injection h with h3
              exact absurd h3 hwne
            · -- vstr w equals the baseline's effective value: it must be the
              -- baseline store (a string is never a derived date)
              rcases heffbso_cases with ⟨d, hd⟩ | hfall
              · rw [hw, hd] at h
                cases h
              · rw [hfall] at h
                exact h.symm
        · obtain ⟨p1, v⟩ := kv
          obtain ⟨str, rfl, _⟩ := hstep_str p p1 v
            (by rcases hdp with rfl | rfl <;> decide) hstep
          have hval := (bundleEmitStep_some_val hstep).1 hdp
          rw [heff] at hval
          rw [← hval]
          rfl
      have hsr := @start_read_not_relative today _ hreltype
      have hs2r := @start_read_not_relative today _ hrel2
      have her := @end_read_not_relative today _ hreltype
      have hs2er := @end_read_not_relative today _ hrel2
      constructor
      · rw [hsr, hs2r]
        exact hdstore Param.date_filter_start (Or.inl rfl) hsr
      · rw [her, hs2er]
        exact hdstore Param.date_filter_end (Or.inr rfl) hsr
  -- assemble across all parameters
  intro p
  by_cases h1 : p = Param.date_filter_start
  · subst h1
    rw [effectiveView_start, effectiveView_start]
    exact hdates.1
  by_cases h2 : p = Param.date_filter_end
  · subst h2
    rw [effectiveView_end, effectiveView_end]
    exact hdates.2
  by_cases hb : p = Param.bundle
  · subst hb
    rw [effectiveView_nondate (by decide) (by decide),
      effectiveView_nondate (by decide) (by decide), hs2 Param.bundle,
      requestInitial_bundle, hs Param.bundle, requestInitial_bundle]
  · rw [effectiveView_nondate h1 h2, effectiveView_nondate h1 h2]
    exact hstore_eq p hb h1 h2

theorem bundleEmitStep_some_ne {today : PyDate} {s bso : BookmarkSearch}
    {p p1 : Param} {v : PyVal} (h : bundleEmitStep today s bso p = some (p1, v)) :
    ((p = Param.date_filter_start ∨ p = Param.date_filter_end) →
      effectiveView today s p ≠ effectiveView today bso p)
    ∧ (¬(p = Param.date_filter_start ∨ p = Param.date_filter_end) →
      s.store p ≠ bso.store p) := by
  unfold bundleEmitStep at h
  split at h
  case isTrue hdp =>
    refine ⟨fun _ => ?_, fun hc => absurd hdp hc⟩
    split at h
    · cases h
    · split at h
      · split at h
        · cases h
        · exact (emitCheck_eq_some h).2.2.2.2
      · exact (emitCheck_eq_some h).2.2.2.2
  case isFalse hdp =>
    exact ⟨fun hc => absurd hc hdp, fun _ => (emitCheck_eq_some h).2.2.2.2⟩

/-! ### Claim C2: theorems -/

/-- Bundle storing `q = "python"`. -/
def c2bundleA : Bundle :=
  ⟨5, fun p => match p with | .q => PyVal.vstr "python" | _ => PyVal.vnone⟩

/-- A search bound to `c2bundleA` whose explicit `q` is the empty string. -/
def c2emptyOverride : BookmarkSearch :=
  mkBookmarkSearch (fun p => match p with | .q => PyVal.vstr "" | _ => PyVal.vnone)
    (some c2bundleA) (fun _ => none)

def c2fbA : String → Option Bundle := fun t => if t = "5" then some c2bundleA else none

/-- Bundle in relative date mode that also stores an absolute start date. -/
def c2bundleB : Bundle :=
  ⟨9, fun p => match p with
    | .date_filter_type => PyVal.vstr "relative"
    | .date_filter_relative_string => PyVal.vstr "last_7_days"
    | .date_filter_start => PyVal.vstr "2024-01-01"
    | _ => PyVal.vnone⟩

def c2fbB : String → Option Bundle := fun t => if t = "9" then some c2bundleB else none

/-- Request on `c2bundleB` switching the date mode to absolute. -/
def c2absOverride : BookmarkSearch :=
  from_request
    (fun p => match p with
      | .bundle => some "9"
      | .date_filter_type => some "absolute"
      | _ => none)
    c2fbB (fun _ => none)

/-- C2 counterexample.  Emission is conditioned on the value being non-None
and non-empty, not only on differing from the bundle baseline: a search bound
to a bundle carrying `q = "python"` with explicit `q = ""` differs from the
baseline at `q`, yet `query_params` emits only the bundle id — and re-parsing
that serialization yields `q = "python"` instead of the empty override, so
the round trip fails too.  Separately, a date value emitted in absolute mode
is a date object; re-parsed through the request layer it comes back as a
string, which is a different value, so the round trip is also inexact when a
date survives serialization. -/
theorem C2_query_params_counterexample :
    query_params ⟨2024, 6, 10⟩ c2emptyOverride = [(Param.bundle, PyVal.vbundle 5)]
    ∧ c2emptyOverride.store Param.q = PyVal.vstr ""
    ∧ (search_object c2bundleA).store Param.q = PyVal.vstr "python"
    ∧ PyVal.vstr "" ≠ PyVal.vstr "python"
    ∧ effectiveView ⟨2024, 6, 10⟩
        (from_request (emittedQuery (query_params ⟨2024, 6, 10⟩ c2emptyOverride))
          c2fbA (fun _ => none)) Param.q = PyVal.vstr "python"
    ∧ (Param.date_filter_start, PyVal.vdate ⟨2024, 1, 1⟩)
        ∈ query_params ⟨2024, 6, 10⟩ c2absOverride
    ∧ effectiveView ⟨2024, 6, 10⟩ c2absOverride Param.date_filter_start
        = PyVal.vdate ⟨2024, 1, 1⟩
    ∧ effectiveView ⟨2024, 6, 10⟩
        (from_request (emittedQuery (query_params ⟨2024, 6, 10⟩ c2absOverride))
          c2fbB (fun _ => none)) Param.date_filter_start = PyVal.vstr "2024-01-01" := by
  decide

/-- C2 (amended).  For a search obtained from a request with a bundle
attached: the serialization always contains the bundle reference; every other
emitted entry carries the search's resolved value, which is non-None,
non-empty, and differs from the value the bundle alone would resolve
(minimality); for parameters outside the date range, an entry is emitted
*exactly* when the resolved value is non-None, non-empty and differs from the
bundle baseline; in relative date mode the range fields are never emitted,
and in absolute mode they are omitted when both resolved ends equal the
bundle baseline's resolved ends.  Re-parsing the emitted parameters together
with the bundle id yields the same effective search, provided that in
relative mode either the token derives a range or no explicit start/end
override was present, and that every emitted value is a string (date objects
do not survive URL stringification unchanged). -/
theorem C2_query_params_minimal_roundtrip (today : PyDate) (b : Bundle)
    (query : Param → Option String) (findBundle : String → Option Bundle)
    (prefs : Param → Option PyVal) (bid : String)
    (hq : query Param.bundle = some bid) (hbid : bid ≠ "")
    (hfb : findBundle bid = some b) (s : BookmarkSearch)
    (hs : s = from_request query findBundle prefs) :
    (Param.bundle, PyVal.vbundle b.id) ∈ query_params today s
    ∧ (∀ p v, (p, v) ∈ query_params today s → p ≠ Param.bundle →
        v = effectiveView today s p ∧ v ≠ PyVal.vnone ∧ v ≠ PyVal.vstr ""
        ∧ effectiveView today s p ≠ effectiveView today (search_object b) p)
    ∧ (∀ p, p ≠ Param.bundle → p ≠ Param.date_filter_start →
        p ≠ Param.date_filter_end →
        ((p, s.store p) ∈ query_params today s ↔
          s.store p ≠ PyVal.vnone ∧ s.store p ≠ PyVal.vstr ""
          ∧ s.store p ≠ (search_object b).store p))
    ∧ (s.store Param.date_filter_type = PyVal.vstr "relative" →
        ∀ v, (Param.date_filter_start, v) ∉ query_params today s
          ∧ (Param.date_filter_end, v) ∉ query_params today s)
    ∧ (s.store Param.date_filter_type = PyVal.vstr "absolute" →
        date_filter_start_read today s = date_filter_start_read today (search_object b) →
        date_filter_end_read today s = date_filter_end_read today (search_object b) →
        ∀ v, (Param.date_filter_start, v) ∉ query_params today s
          ∧ (Param.date_filter_end, v) ∉ query_params today s)
    ∧ (∀ (findBundle2 : String → Option Bundle) (prefs2 : Param → Option PyVal),
        findBundle2 (pyStr (PyVal.vbundle b.id)) = some b →
        pyStr (PyVal.vbundle b.id) ≠ "" →
        (s.store Param.date_filter_type = PyVal.vstr "relative" →
          derivesRange today s = true
          ∨ (requestInitial query Param.date_filter_start = none
            ∧ requestInitial query Param.date_filter_end = none)) →
        (query_params today s).all
          (fun kv => kv.1 == Param.bundle || kv.2.isStr) = true →
        (∀ p, effectiveView today
            (from_request (emittedQuery (query_params today s)) findBundle2 prefs2) p
          = effectiveView today s p)
        ∧ (from_request (emittedQuery (query_params today s)) findBundle2
            prefs2).bundleRef = some b) := by
  have hseq : s = setParams (search_object b) (requestInitial query) := by
    rw [hs, from_request_bundle_eq hq hbid hfb]
  have hbr : s.bundleRef = some b := by rw [hseq]; rfl
  have hstorem : ∀ p, s.store p =
      match requestInitial query p with
      | some v => PyVal.vstr v
      | none => (search_object b).store p := by
    intro p
    rw [hseq]
    rfl
  have hqp := @query_params_bundle_eq today _ _ hbr
  refine ⟨?_, ?_, ?_, ?_, ?_, ?_⟩
  · rw [hqp]
    exact List.mem_cons_self _ _
  · intro p v hmem hp
    rw [hqp] at hmem
    rcases List.mem_cons.mp hmem with heq | hmem2
    · exact absurd (congrArg Prod.fst heq) hp
    · rcases List.mem_filterMap.mp hmem2 with ⟨pq, hpqmem, hstep⟩
      have hfst := bundleEmitStep_fst hstep
      rw [← hfst] at hstep
      have hsome := bundleEmitStep_some hstep
      by_cases hdp : p = Param.date_filter_start ∨ p = Param.date_filter_end
      · exact ⟨(bundleEmitStep_some_val hstep).1 hdp, hsome.2.1, hsome.2.2,
          (bundleEmitStep_some_ne hstep).1 hdp⟩
      · have h1 : p ≠ Param.date_filter_start := fun h => hdp (Or.inl h)
        have h2 : p ≠ Param.date_filter_end := fun h => hdp (Or.inr h)
        have hval := (bundleEmitStep_some_val hstep).2 hdp
        have hne := (bundleEmitStep_some_ne hstep).2 hdp
        rw [effectiveView_nondate h1 h2, effectiveView_nondate h1 h2]
        exact ⟨hval, hsome.2.1, hsome.2.2, hne⟩
  · intro p hpb h1 h2
    constructor
    · intro hmem
      rw [hqp] at hmem
      rcases List.mem_cons.mp hmem with heq | hmem2
      · exact absurd (congrArg Prod.fst heq) hpb
      · rcases List.mem_filterMap.mp hmem2 with ⟨pq, hpqmem, hstep⟩
        have hfst := bundleEmitStep_fst hstep
        rw [← hfst, bundleEmitStep_nondate h1 h2] at hstep
        obtain ⟨_, _, c1, c2, c3⟩ := emitCheck_eq_some hstep
        exact ⟨c1, c2, c3⟩
    · rintro ⟨c1, c2, c3⟩
      rw [hqp]
      refine List.mem_cons_of_mem _ (List.mem_filterMap.mpr ⟨p, mem_paramsList p, ?_⟩)
      rw [bundleEmitStep_nondate h1 h2]
      exact emitCheck_of_conds c1 c2 c3
  · intro hrel4 v
    exact ⟨query_params_no_date_params today s hrel4 _ (Or.inl rfl) v,
      query_params_no_date_params today s hrel4 _ (Or.inr rfl) v⟩
  · intro habs heq1 heq2 v
    have habsne : s.store Param.date_filter_type ≠ PyVal.vstr "relative" := by
      rw [habs]
      decide
    constructor <;> intro hmem <;> rw [hqp] at hmem <;>
      rcases List.mem_cons.mp hmem with heq | hmem2
    · exact Param.noConfusion (congrArg Prod.fst heq)
    · rcases List.mem_filterMap.mp hmem2 with ⟨pq, hpqmem, hstep⟩
      rw [← bundleEmitStep_fst hstep] at hstep
      unfold bundleEmitStep at hstep
      rw [if_pos (Or.inl rfl), if_neg habsne, if_pos habs,
        if_pos ⟨heq1, heq2⟩] at hstep
      cases hstep
    · exact Param.noConfusion (congrArg Prod.fst heq)
    · rcases List.mem_filterMap.mp hmem2 with ⟨pq, hpqmem, hstep⟩
      rw [← bundleEmitStep_fst hstep] at hstep
      unfold bundleEmitStep at hstep
      rw [if_pos (Or.inr rfl), if_neg habsne, if_pos habs,
        if_pos ⟨heq1, heq2⟩] at hstep
      cases hstep
  · intro findBundle2 prefs2 hfb2 hid hrel6 hstr6
    have hq2bundle : emittedQuery (query_params today s) Param.bundle
        = some (pyStr (PyVal.vbundle b.id)) := by
      rw [hqp]
      exact emittedQuery_head _ _ _
    have hs2eq : from_request (emittedQuery (query_params today s)) findBundle2 prefs2
        = setParams (search_object b)
            (requestInitial (emittedQuery (query_params today s))) :=
      from_request_bundle_eq hq2bundle hid hfb2
    have hstr' : ∀ p v, (p, v) ∈ query_params today s →
        p = Param.bundle ∨ PyVal.isStr v = true := by
      intro p v hmem
      have hkv := List.all_eq_true.mp hstr6 ⟨p, v⟩ hmem
      simpa [Bool.or_eq_true, beq_iff_eq] using hkv
    refine ⟨?_, by rw [hs2eq]; rfl⟩
    exact roundtrip_effective today b query s _ hstorem hbr
      (fun p => by rw [hs2eq]; rfl) hrel6 hstr'

/-- Query on `c2bundleA` overriding `q`. -/
def c2queryW : Param → Option String := fun p =>
  match p with
  | .bundle => some "5"
  | .q => some "django"
  | _ => none

def c2searchW : BookmarkSearch := from_request c2queryW c2fbA (fun _ => none)

/-- C2 witness: the amended theorem applied to a concrete bundle and request,
giving the bundle entry and a concrete round trip at `q`. -/
theorem C2_query_params_witness :
    (Param.bundle, PyVal.vbundle 5) ∈ query_params ⟨2024, 6, 10⟩ c2searchW
    ∧ effectiveView ⟨2024, 6, 10⟩
        (from_request (emittedQuery (query_params ⟨2024, 6, 10⟩ c2searchW))
          c2fbA (fun _ => none)) Param.q
      = effectiveView ⟨2024, 6, 10⟩ c2searchW Param.q := by
  have h := C2_query_params_minimal_roundtrip ⟨2024, 6, 10⟩ c2bundleA c2queryW c2fbA
    (fun _ => none) "5" rfl (by decide) rfl c2searchW rfl
  exact ⟨h.1, (h.2.2.2.2.2 c2fbA (fun _ => none) rfl (by decide) (by decide)
    (by decide)).1 Param.q⟩

/-! ### JSON model and the domain-scoped configuration resolver
(bookmarks/utils.py: `search_config_for_domain`, `load_settings`,
`_process_path`, `load_module`)

JSON values as `json.load` produces them; JSON `null` parses to Python
`None`, so `jnull` plays both roles.  A parsed configuration file is modelled
as its top-level object (the config format documented by the spec); a parse
failure is `none` at the `FileState` level. -/

inductive Json where
  | jnull
  | jbool (b : Bool)
  | jnum (n : Int)
  | jstr (s : String)
  | jarr (xs : List Json)
  | jobj (kvs : List (String × Json))

/-- Python truthiness (`bool(x)`) of a parsed JSON value. -/
def Json.truthy : Json → Bool
  | .jnull => false
  | .jbool b => b
  | .jnum n => n != 0
  | .jstr s => s != ""
  | .jarr xs => !xs.isEmpty
  | .jobj kvs => !kvs.isEmpty

/-- Python `dict.get(k)` over the (insertion-ordered, unique-keyed) object. -/
def lookupKey (m : List (String × Json)) (k : String) : Option Json :=
  (m.find? (fun kv => kv.1 == k)).map (fun kv => kv.2)

/-- The distinct keys of the object, in declaration order. -/
def keysOf (m : List (String × Json)) : List String :=
  (m.map Prod.fst).dedup

/-- Netloc extraction after the first `//` (`urllib.parse.urlparse(url).netloc`
for the scheme-qualified URLs the loader receives). -/
def netlocAfter : List Char → List Char
  | [] => []
  | '/' :: '/' :: rest =>
    rest.takeWhile (fun c => (c != '/') && (c != '?') && (c != '#'))
  | _ :: rest => netlocAfter rest

/-- `get_domain(url)`. -/
def get_domain (url : String) : String := String.mk (netlocAfter url.data)

/-- `key.startswith("*.") and domain.endswith(key[1:])`. -/
def wildcardMatch (key domain : String) : Bool :=
  ("*.".data).isPrefixOf key.data && (key.data.drop 1).isSuffixOf domain.data

/-- The wildcard loop of `search_config_for_domain`: every matching key
overwrites `config`, so the last declared match wins. -/
def wildcardScan (m : List (String × Json)) (domain : String) (init : Json) : Json :=
  m.foldl (fun cfg kv => if wildcardMatch kv.1 domain then kv.2 else cfg) init

/-- The alias-following `while isinstance(config, str)` loop, instrumented
with a step budget: each budget unit pays for one successful alias lookup.
`none` would mean the budget ran out; the termination theorem shows a budget
of the number of distinct keys always suffices. -/
def aliasLoopFuel (m : List (String × Json)) : Nat → List String → Json → Option Json
  | fuel, visited, .jstr aliasName =>
    if aliasName ∈ visited then some (.jstr aliasName)
    else
      match lookupKey m aliasName with
      | none => some .jnull
      | some v =>
        match fuel with
        | 0 => none
        | fuel2 + 1 => aliasLoopFuel m fuel2 (aliasName :: visited) v
  | _, _, config => some config

/-- The alias loop itself (total: the budget `keysOf m |>.length` never runs
out, per the termination theorem). -/
def aliasLoop (m : List (String × Json)) (visited : List String) (config : Json) : Json :=
  (aliasLoopFuel m (keysOf m).length visited config).getD Json.jnull

/-- Exact match, then wildcard scan when the exact result is falsy, then the
alias loop with `visited = {domain}` — the body of
`search_config_for_domain` after the file has been loaded. -/
def resolveDomainConfig (m : List (String × Json)) (domain : String) : Json :=
  let config0 : Json :=
    match lookupKey m domain with
    | some v => v
    | none => Json.jnull
  let config1 : Json :=
    if config0.truthy = false then wildcardScan m domain config0 else config0
  aliasLoop m [domain] config1

/-- The value of the module-level cache dict of `load_settings`: Python
`None` (also "keys absent"), a parsed-and-processed map, or the string
sentinel `"__JSON_ERROR__"`. -/
inductive CacheVal where
  | cnone
  | cmap (m : List (String × Json))
  | csent

/-- The `cache_settings is None` test. -/
def CacheVal.isNone : CacheVal → Bool
  | .cnone => true
  | _ => false

/-- The `{"cache": ..., "mtime": ...}` dict threaded through `load_settings`. -/
structure SettingsCache where
  cacheVal : CacheVal
  mtime : Option Int

/-- The configuration file as the filesystem presents it: absent, or present
with a modification time and either a parsed top-level object or a JSON
parse failure. -/
inductive FileState where
  | missing
  | present (mtime : Int) (parsed : Option (List (String × Json)))

/-- Does the string start with `./` or `../`? -/
def startsWithRel (s : String) : Bool :=
  ("./".data).isPrefixOf s.data || ("../".data).isPrefixOf s.data

mutual

/-- `_process_path`: recursively rewrite every string beginning with `./` or
`../` through `resolveRel` (standing for `str((base_dir / node).resolve())`,
a filesystem-independent parameter). -/
def processPath (resolveRel : String → String) : Json → Json
  | .jnull => .jnull
  | .jbool b => .jbool b
  | .jnum n => .jnum n
  | .jstr s => if startsWithRel s then .jstr (resolveRel s) else .jstr s
  | .jarr xs => .jarr (processArr resolveRel xs)
  | .jobj kvs => .jobj (processObj resolveRel kvs)

def processArr (resolveRel : String → String) : List Json → List Json
  | [] => []
  | x :: xs => processPath resolveRel x :: processArr resolveRel xs

def processObj (resolveRel : String → String) :
    List (String × Json) → List (String × Json)
  | [] => []
  | (k, v) :: kvs => (k, processPath resolveRel v) :: processObj resolveRel kvs

end

/-- `load_settings(path, cache)`: missing file (getmtime raising) resets the
cache to `None`/`None`; otherwise the file is (re)parsed when the cache is
empty or the modification time changed, caching either the processed map or
the `"__JSON_ERROR__"` sentinel; a fresh cache hit is returned as is.
Returns the returned value together with the cache dict's final state. -/
def load_settings (resolveRel : String → String) (file : FileState)
    (cache : SettingsCache) : CacheVal × SettingsCache :=
  match file with
  | .missing => (CacheVal.cnone, ⟨CacheVal.cnone, none⟩)
  | .present mtime parsed =>
    if cache.cacheVal.isNone || cache.mtime != some mtime then
      match parsed with
      | some obj =>
        let processed := processObj resolveRel obj
        (CacheVal.cmap processed, ⟨CacheVal.cmap processed, some mtime⟩)
      | none => (CacheVal.csent, ⟨CacheVal.csent, some mtime⟩)
    else (cache.cacheVal, cache)

inductive PyExc where
  | attributeError
  | typeError
  | execError
deriving DecidableEq, Repr

/-- Modelled from the spec: the Django settings module (outside these
sources) is the spec's configuration surface and defines no attribute named
`path`; per Django semantics, reading a missing settings attribute raises
`AttributeError`.  The two log calls of `search_config_for_domain` evaluate
`settings.path` (instead of the `settings_path` parameter) inside their
f-strings, so they raise. -/
def djangoSettingsPath : Except PyExc String := .error .attributeError

/-- `search_config_for_domain(url, settings_path, settings_cache)`, with the
file system and Django settings made explicit.  Outcomes are `Except`: the
missing-file and parse-failure branches evaluate `settings.path` while
building their log message and therefore raise. -/
def search_config_for_domain (resolveRel : String → String) (url : String)
    (file : FileState) (cache : SettingsCache) :
    Except PyExc (Json × SettingsCache) :=
  match file with
  | .missing =>
    match djangoSettingsPath with
    | .error e => .error e
    | .ok _ => .ok (Json.jnull, cache)
  | .present _ _ =>
    let (dm, cache2) := load_settings resolveRel file cache
    match dm with
    | CacheVal.csent =>
      match djangoSettingsPath with
      | .error e => .error e
      | .ok _ => .ok (Json.jnull, cache2)
    | CacheVal.cnone => .error PyExc.typeError
    | CacheVal.cmap m => .ok (resolveDomainConfig m (get_domain url), cache2)

/-! ### `load_module` (bookmarks/utils.py) -/

/-- A cached `(module, mtime)` pair for one loader path; modules are
identified abstractly by a number (Django object identity). -/
structure ModuleCacheEntry where
  module : Nat
  mtime : Int
deriving DecidableEq, Repr

/-- The observable outcome of one `load_module` call: its return value or
the propagated exception, together with the final cache entry for the path. -/
inductive LoadModuleResult where
  | ok (ret : Option Nat) (cache : Option ModuleCacheEntry)
  | raised (e : PyExc) (cache : Option ModuleCacheEntry)
deriving DecidableEq, Repr

/-- `load_module(path, cache)` for one path: `getmtime` is the result of
`os.path.getmtime` (`none` = OSError/FileNotFoundError), `execResult` the
outcome of executing the file's code at this moment, `entry` =
`cache.get(path)`. -/
def load_module (getmtime : Option Int) (execResult : Except PyExc Nat)
    (entry : Option ModuleCacheEntry) : LoadModuleResult :=
  match getmtime with
  | none => .ok none entry
  | some mtime =>
    match entry with
    | some e =>
      if e.mtime = mtime then .ok (some e.module) (some e)
      else
        match execResult with
        | .ok m => .ok (some m) (some ⟨m, mtime⟩)
        | .error ex => .raised ex (some e)
    | none =>
      match execResult with
      | .ok m => .ok (some m) (some ⟨m, mtime⟩)
      | .error ex => .raised ex none

/-! ### Claim C3 -/

theorem wildcardScan_eq (domain : String) (m : List (String × Json)) :
    ∀ init : Json,
      wildcardScan m domain init =
        match m.reverse.find? (fun kv => wildcardMatch kv.1 domain) with
        | some kv => kv.2
        | none => init := by
  induction m using List.reverseRecOn with
  | nil => intro init; rfl
  | append_singleton l x ih =>
    intro init
    have h1 : wildcardScan (l ++ [x]) domain init
        = if wildcardMatch x.1 domain then x.2 else wildcardScan l domain init := by
      unfold wildcardScan
      rw [List.foldl_append]
      rfl
    have h2 : (l ++ [x]).reverse = x :: l.reverse := by
      rw [List.reverse_append]
      rfl
    rw [h1, h2]
    by_cases hx : wildcardMatch x.1 domain = true
    · rw [if_pos hx,
        @List.find?_cons_of_pos _ (fun kv => wildcardMatch kv.1 domain) x l.reverse hx]
    · rw [if_neg hx,
        @List.find?_cons_of_neg _ (fun kv => wildcardMatch kv.1 domain) x l.reverse hx,
        ih init]

def c3map : List (String × Json) :=
  [("*.com", Json.jnum 1), ("*.example.com", Json.jnum 2)]

/-- C3 counterexample.  For host `a.example.com` both wildcard keys of
`c3map` match and `*.com` is declared first, so the claim requires its entry
(`1`).  The scan loop has no `break` and each match overwrites `config`, so
the code returns the later entry (`2`): the last declared match wins, not
the first. -/
theorem C3_wildcard_order_counterexample :
    lookupKey c3map "a.example.com" = none
    ∧ wildcardMatch "*.com" "a.example.com" = true
    ∧ wildcardMatch "*.example.com" "a.example.com" = true
    ∧ resolveDomainConfig c3map "a.example.com" = Json.jnum 2
    ∧ Json.jnum 2 ≠ Json.jnum 1 := by
  refine ⟨rfl, by decide, by decide, rfl, fun h => ?_⟩
  injection h with h2
  exact absurd h2 (by decide)

/-- C3 (amended): with no exact-match key, the wildcard loop scans the keys
in declaration order with no break, each match overwriting the previous, so
the selected entry is that of the LAST declared wildcard key matching the
host — the first match in reverse declaration order — or null if none
match; the selected entry then feeds the alias loop. -/
theorem C3_wildcard_last_match (m : List (String × Json)) (domain : String)
    (hex : lookupKey m domain = none) :
    resolveDomainConfig m domain =
      aliasLoop m [domain]
        (match m.reverse.find? (fun kv => wildcardMatch kv.1 domain) with
          | some kv => kv.2
          | none => Json.jnull) := by
  unfold resolveDomainConfig
  simp only [hex]
  have hcond : Json.jnull.truthy = false := rfl
  rw [if_pos hcond, wildcardScan_eq domain m Json.jnull]

/-- C3 witness: the amended theorem applied at `c3map` and host
`a.example.com`, where the reverse-order first match is `*.example.com`. -/
theorem C3_wildcard_last_match_witness :
    lookupKey c3map "a.example.com" = none
    ∧ resolveDomainConfig c3map "a.example.com"
      = aliasLoop c3map ["a.example.com"] (Json.jnum 2) :=
  ⟨rfl, C3_wildcard_last_match c3map "a.example.com" rfl⟩

/-! ### Claim C4 -/

/-- C4 code-bug evaluation.  At the cache layer the claim's behavior holds:
`load_settings` on a missing file resets the cache to the None state and
returns None; on a JSON parse failure it caches the `__JSON_ERROR__`
sentinel — a state distinct from "file absent" — and a later call with an
unchanged modification time serves the sentinel without reparsing.  But
`search_config_for_domain` itself, on both the missing-file path and the
parse-failure path, evaluates `settings.path` (a typo for the
`settings_path` parameter; the Django settings object has no such attribute)
inside the log f-string, so an AttributeError escapes instead of the logged
diagnostic and `None` return that the claim (and the log message's own
text) intends. -/
theorem C4_config_failure_paths :
    load_settings (fun s => s) FileState.missing
        ⟨CacheVal.cmap [("a", Json.jnull)], some 3⟩
      = (CacheVal.cnone, ⟨CacheVal.cnone, none⟩)
    ∧ load_settings (fun s => s) (FileState.present 7 none) ⟨CacheVal.cnone, none⟩
      = (CacheVal.csent, ⟨CacheVal.csent, some 7⟩)
    ∧ CacheVal.csent ≠ CacheVal.cnone
    ∧ load_settings (fun s => s) (FileState.present 7 none) ⟨CacheVal.csent, some 7⟩
      = (CacheVal.csent, ⟨CacheVal.csent, some 7⟩)
    ∧ search_config_for_domain (fun s => s) "https://example.com/x" FileState.missing
        ⟨CacheVal.cnone, none⟩ = Except.error PyExc.attributeError
    ∧ search_config_for_domain (fun s => s) "https://example.com/x"
        (FileState.present 7 none) ⟨CacheVal.cnone, none⟩
      = Except.error PyExc.attributeError := by
  exact ⟨rfl, rfl, fun h => CacheVal.noConfusion h, rfl, rfl, rfl⟩

/-! ### Claim C9 -/

theorem filter_visited_le (a : String) (visited : List String) :
    ∀ ys : List String,
      (ys.filter (fun k => decide (k ∉ (a :: visited)))).length
        ≤ (ys.filter (fun k => decide (k ∉ visited))).length := by
  intro ys
  induction ys with
  | nil => exact Nat.le_refl 0
  | cons x xs ih =>
    simp only [List.filter_cons]
    by_cases h1 : x ∉ (a :: visited)
    · have h2 : x ∉ visited := fun hm => h1 (List.mem_cons_of_mem a hm)
      rw [if_pos (by simpa using h1), if_pos (by simpa using h2)]
      simpa using Nat.succ_le_succ ih
    · rw [if_neg (by simpa using h1)]
      by_cases h2 : x ∉ visited
      · rw [if_pos (by simpa using h2)]
        exact Nat.le_succ_of_le ih
      · rw [if_neg (by simpa using h2)]
        exact ih

theorem filter_visited_lt (l : List String) (a : String) (visited : List String)
    (ha : a ∈ l) (hnv : a ∉ visited) :
    (l.filter (fun k => decide (k ∉ (a :: visited)))).length
      < (l.filter (fun k => decide (k ∉ visited))).length := by
  induction l with
  | nil => cases ha
  | cons x xs ih =>
    simp only [List.filter_cons]
    rcases List.mem_cons.mp ha with rfl | hmem
    · rw [if_neg (by simp), if_pos (by simpa using hnv)]
      simpa using Nat.lt_succ_of_le (filter_visited_le a visited xs)
    · by_cases hx : x ∉ visited
      · by_cases hxa : x = a
        · subst hxa
          rw [if_neg (by simp), if_pos (by simpa using hx)]
          simpa using Nat.lt_succ_of_le (filter_visited_le x visited xs)
        · have hx1 : x ∉ (a :: visited) := by
            intro hm
            rcases List.mem_cons.mp hm with h | h
            · exact hxa h
            · exact hx h
          rw [if_pos (by simpa using hx1), if_pos (by simpa using hx)]
          simpa using Nat.succ_lt_succ (ih hmem)
      · have hx1 : x ∈ visited := not_not.mp hx
        have hx2 : ¬ x ∉ (a :: visited) := fun hc => hc (List.mem_cons_of_mem a hx1)
        rw [if_neg (by simpa using hx2), if_neg (by simpa using hx)]
        exact ih hmem

theorem lookupKey_some_mem {m : List (String × Json)} {k : String} {v : Json}
    (h : lookupKey m k = some v) : k ∈ keysOf m := by
  unfold lookupKey at h
  rcases hf : m.find? (fun kv => kv.1 == k) with _ | kv
  · rw [hf] at h
    cases h
  · have hmem := List.mem_of_find?_eq_some hf
    have hp : kv.1 = k := by simpa using List.find?_some hf
    unfold keysOf
    rw [List.mem_dedup]
    exact hp ▸ List.mem_map_of_mem Prod.fst hmem

/-- Fuel sufficiency for the alias loop: whenever the budget is at least the
number of distinct unvisited keys, the loop completes, and extra budget does
not change its result. -/
theorem aliasLoopFuel_spec (m : List (String × Json)) :
    ∀ (fuel : Nat) (visited : List String) (config : Json),
      ((keysOf m).filter (fun k => decide (k ∉ visited))).length ≤ fuel →
      (aliasLoopFuel m fuel visited config).isSome = true
      ∧ ∀ fuel2, fuel ≤ fuel2 →
          aliasLoopFuel m fuel2 visited config = aliasLoopFuel m fuel visited config := by
  intro fuel
  induction fuel with
  | zero =>
    intro visited config hle
    cases config with
    | jstr aliasName =>
      by_cases hv : aliasName ∈ visited
      · exact ⟨by simp [aliasLoopFuel, hv],
          fun fuel2 _ => by cases fuel2 <;> simp [aliasLoopFuel, hv]⟩
      · rcases hl : lookupKey m aliasName with _ | v
        · exact ⟨by simp [aliasLoopFuel, hv, hl],
            fun fuel2 _ => by cases fuel2 <;> simp [aliasLoopFuel, hv, hl]⟩
        · exfalso
          have hmem : aliasName ∈ (keysOf m).filter (fun k => decide (k ∉ visited)) := by
            rw [List.mem_filter]
            exact ⟨lookupKey_some_mem hl, by simpa using hv⟩
          have hpos : 0 < ((keysOf m).filter (fun k => decide (k ∉ visited))).length :=
            List.length_pos.mpr (List.ne_nil_of_mem hmem)
          omega
    | jnull => exact ⟨rfl, fun fuel2 _ => by cases fuel2 <;> rfl⟩
    | jbool b => exact ⟨rfl, fun fuel2 _ => by cases fuel2 <;> rfl⟩
    | jnum n => exact ⟨rfl, fun fuel2 _ => by cases fuel2 <;> rfl⟩
    | jarr xs => exact ⟨rfl, fun fuel2 _ => by cases fuel2 <;> rfl⟩
    | jobj kvs => exact ⟨rfl, fun fuel2 _ => by cases fuel2 <;> rfl⟩
  | succ f ih =>
    intro visited config hle
    cases config with
    | jstr aliasName =>
      by_cases hv : aliasName ∈ visited
      · exact ⟨by simp [aliasLoopFuel, hv],
          fun fuel2 _ => by cases fuel2 <;> simp [aliasLoopFuel, hv]⟩
      · rcases hl : lookupKey m aliasName with _ | v
        · exact ⟨by simp [aliasLoopFuel, hv, hl],
            fun fuel2 _ => by cases fuel2 <;> simp [aliasLoopFuel, hv, hl]⟩
        · have hmemk := lookupKey_some_mem hl
          have hlt := filter_visited_lt (keysOf m) aliasName visited hmemk hv
          have hle2 :
              ((keysOf m).filter (fun k => decide (k ∉ (aliasName :: visited)))).length ≤ f := by
            omega
          obtain ⟨hsome, hmono⟩ := ih (aliasName :: visited) v hle2
          have estep : ∀ g : Nat,
              aliasLoopFuel m (g + 1) visited (Json.jstr aliasName)
                = aliasLoopFuel m g (aliasName :: visited) v := by
            intro g
            simp [aliasLoopFuel, hv, hl]
          constructor
          · rw [estep f]
            exact hsome
          · intro fuel2 hf2
            rcases fuel2 with _ | f2
            · omega
            · rw [estep f2, estep f]
              exact hmono f2 (by omega)
    | jnull => exact ⟨rfl, fun fuel2 _ => by cases fuel2 <;> rfl⟩
    | jbool b => exact ⟨rfl, fun fuel2 _ => by cases fuel2 <;> rfl⟩
    | jnum n => exact ⟨rfl, fun fuel2 _ => by cases fuel2 <;> rfl⟩
    | jarr xs => exact ⟨rfl, fun fuel2 _ => by cases fuel2 <;> rfl⟩
    | jobj kvs => exact ⟨rfl, fun fuel2 _ => by cases fuel2 <;> rfl⟩

def c9map : List (String × Json) :=
  [("*.org", Json.jstr "A"), ("A", Json.jstr "B"), ("B", Json.jstr "A")]

/-- C9: the alias loop always completes within a budget of one lookup per
distinct key of the map (each successful lookup visits a previously
unvisited key), extra budget never changes the result; on a revisited alias
it stops returning the alias string just reached, and on an alias whose
target is not a key it stops returning the None just produced by
`dict.get` — never an error.  The chain `*.org -> A -> B -> A` resolves to
the revisited alias `A`. -/
theorem C9_alias_resolution_bounded :
    (∀ (m : List (String × Json)) (visited : List String) (config : Json),
      (aliasLoopFuel m (keysOf m).length visited config).isSome = true)
    ∧ (∀ (m : List (String × Json)) (visited : List String) (config : Json)
        (extra : Nat),
        aliasLoopFuel m ((keysOf m).length + extra) visited config
          = aliasLoopFuel m (keysOf m).length visited config)
    ∧ (∀ (m : List (String × Json)) (visited : List String) (a : String)
        (fuel : Nat), a ∈ visited →
        aliasLoopFuel m fuel visited (Json.jstr a) = some (Json.jstr a))
    ∧ (∀ (m : List (String × Json)) (visited : List String) (a : String)
        (fuel : Nat), a ∉ visited → lookupKey m a = none →
        aliasLoopFuel m fuel visited (Json.jstr a) = some Json.jnull)
    ∧ resolveDomainConfig c9map "d.example.org" = Json.jstr "A" := by
  refine ⟨?_, ?_, ?_, ?_, rfl⟩
  · intro m visited config
    exact (aliasLoopFuel_spec m _ visited config (List.length_filter_le _ _)).1
  · intro m visited config extra
    exact (aliasLoopFuel_spec m _ visited config (List.length_filter_le _ _)).2 _
      (Nat.le_add_right _ _)
  · intro m visited a fuel ha
    cases fuel <;> simp [aliasLoopFuel, ha]
  · intro m visited a fuel ha hl
    cases fuel <;> simp [aliasLoopFuel, ha, hl]

/-- C9 witness: the bound and the cycle behavior at the concrete
`*.org -> A -> B -> A` map. -/
theorem C9_alias_resolution_witness :
    (aliasLoopFuel c9map (keysOf c9map).length ["d.example.org"]
      (Json.jstr "A")).isSome = true
    ∧ aliasLoopFuel c9map 5 ["x", "A"] (Json.jstr "A") = some (Json.jstr "A") :=
  ⟨C9_alias_resolution_bounded.1 c9map ["d.example.org"] (Json.jstr "A"),
    C9_alias_resolution_bounded.2.2.1 c9map ["x", "A"] "A" 5 (by decide)⟩

/-! ### Claim C10 -/

/-- C10: `load_module` consults the cache entry for the path; a fresh entry
(matching modification time) is returned without executing anything, a
missing or stale entry triggers execution; a raised execution error
propagates and leaves the cache entry exactly as it was (no entry added or
replaced), and only a successful execution stores `(module, mtime)`; a
missing file returns None without touching the cache. -/
theorem C10_load_module_cache_discipline :
    (∀ (mtime : Int) (e : PyExc),
      load_module (some mtime) (Except.error e) none = LoadModuleResult.raised e none)
    ∧ (∀ (mtime : Int) (e : PyExc) (ent : ModuleCacheEntry), ent.mtime ≠ mtime →
      load_module (some mtime) (Except.error e) (some ent)
        = LoadModuleResult.raised e (some ent))
    ∧ (∀ (mtime : Int) (m : Nat),
      load_module (some mtime) (Except.ok m) none
        = LoadModuleResult.ok (some m) (some ⟨m, mtime⟩))
    ∧ (∀ (mtime : Int) (m : Nat) (ent : ModuleCacheEntry), ent.mtime ≠ mtime →
      load_module (some mtime) (Except.ok m) (some ent)
        = LoadModuleResult.ok (some m) (some ⟨m, mtime⟩))
    ∧ (∀ (mtime : Int) (execResult : Except PyExc Nat) (ent : ModuleCacheEntry),
      ent.mtime = mtime →
      load_module (some mtime) execResult (some ent)
        = LoadModuleResult.ok (some ent.module) (some ent))
    ∧ (∀ (execResult : Except PyExc Nat) (entry : Option ModuleCacheEntry),
      load_module none execResult entry = LoadModuleResult.ok none entry) := by
  refine ⟨fun _ _ => rfl, ?_, fun _ _ => rfl, ?_, ?_, fun _ _ => rfl⟩
  · intro mtime e ent h
    simp [load_module, h]
  · intro mtime m ent h
    simp [load_module, h]
  · intro mtime execResult ent h
    simp [load_module, h]

/-- C10 witness: a failed execution on a stale entry propagates the error
and keeps the old entry; the next call, with the file fixed (new
modification time, successful execution), re-executes and caches. -/
theorem C10_load_module_witness :
    load_module (some 5) (Except.error PyExc.execError) (some ⟨1, 3⟩)
      = LoadModuleResult.raised PyExc.execError (some ⟨1, 3⟩)
    ∧ load_module (some 6) (Except.ok 2) (some ⟨1, 3⟩)
      = LoadModuleResult.ok (some 2) (some ⟨2, 6⟩) :=
  ⟨C10_load_module_cache_discipline.2.1 5 PyExc.execError ⟨1, 3⟩ (by decide),
    C10_load_module_cache_discipline.2.2.2.1 6 2 ⟨1, 3⟩ (by decide)⟩

/-! ### `load_page` (bookmarks/services/website_loader.py)

The chunked read loop of `load_page`, over the response's chunk sequence.
Bytes are modelled as characters (the marker `</head>` is ASCII).  After
each chunk the cumulative buffer is checked for the closing-head marker
(`end_of_head in content`, then `content.split(end_of_head)[0] +
end_of_head`), then for the size cap. -/

def endOfHead : List Char := "</head>".data

/-- Index of the first occurrence of `marker` in `buf` (Python
`bytes.find` / the split point of `content.split(marker)`). -/
def findMarker (marker : List Char) : List Char → Option Nat
  | [] => if marker.isEmpty then some 0 else none
  | c :: rest =>
    if marker.isPrefixOf (c :: rest) then some 0
    else (findMarker marker rest).map (fun i => i + 1)

/-- Python `marker in content`. -/
def hasMarker (marker buf : List Char) : Bool :=
  (findMarker marker buf).isSome

/-- `content.split(end_of_head)[0] + end_of_head` — the buffer truncated to
end exactly at the first marker occurrence, inclusive. -/
def truncateAtMarker (marker buf : List Char) : List Char :=
  match findMarker marker buf with
  | some i => buf.take (i + marker.length)
  | none => buf

/-- The `for chunk in r.iter_content(...)` loop of `load_page`, carrying the
running `size` and the accumulated `content`. -/
def load_page_loop (maxLimit : Nat) (marker : List Char) :
    List (List Char) → Nat → List Char → List Char
  | [], _, content => content
  | c :: rest, size, content =>
    let size2 := size + c.length
    let content2 := content ++ c
    if hasMarker marker content2 then truncateAtMarker marker content2
    else if size2 > maxLimit then content2
    else load_page_loop maxLimit marker rest size2 content2

/-- The buffer `load_page` accumulates (before charset decoding), as a
function of the response's chunk sequence and `MAX_CONTENT_LIMIT`. -/
def load_page_content (chunks : List (List Char)) (maxLimit : Nat) : List Char :=
  load_page_loop maxLimit endOfHead chunks 0 []

theorem take_flatten_cons (c : List Char) (rest : List (List Char)) (j : Nat) :
    (((c :: rest).take (j + 1)).flatten) = c ++ ((rest.take j).flatten) := by
  simp [List.take_succ_cons]

theorem findMarker_some {marker : List Char} : ∀ {buf : List Char} {i : Nat},
    findMarker marker buf = some i →
    marker <+: buf.drop i ∧ ∀ j, j < i → ¬ marker <+: buf.drop j := by
  intro buf
  induction buf with
  | nil =>
    intro i h
    unfold findMarker at h
    split at h
    case isTrue he =>
      injection h with h2
      subst h2
      refine ⟨?_, fun j hj => absurd hj (by omega)⟩
      rw [List.isEmpty_iff.mp he]
      exact List.nil_prefix
    case isFalse => cases h
  | cons c rest ih =>
    intro i h
    unfold findMarker at h
    split at h
    case isTrue hp =>
      injection h with h2
      subst h2
      exact ⟨List.isPrefixOf_iff_prefix.mp hp, fun j hj => absurd hj (by omega)⟩
    case isFalse hp =>
      rcases hf : findMarker marker rest with _ | i0
      · rw [hf] at h
        cases h
      · rw [hf] at h
        have h2 : i = i0 + 1 := by simpa using h.symm
        subst h2
        obtain ⟨hpre, hmin⟩ := ih hf
        refine ⟨hpre, ?_⟩
        intro j hj
        cases j with
        | zero =>
          intro hc
          exact hp (List.isPrefixOf_iff_prefix.mpr hc)
        | succ j0 =>
          exact hmin j0 (by omega)

/-- Marker-stop: if `k` is the first chunk count whose cumulative buffer
contains the marker, and no earlier buffer tripped the size cap, the loop
returns that buffer truncated at the marker. -/
theorem load_page_loop_marker (maxLimit : Nat) (marker : List Char) :
    ∀ (rest : List (List Char)) (content : List Char) (k : Nat),
      hasMarker marker content = false →
      content.length ≤ maxLimit →
      0 < k → k ≤ rest.length →
      hasMarker marker (content ++ ((rest.take k).flatten)) = true →
      (∀ j, j < k → hasMarker marker (content ++ ((rest.take j).flatten)) = false) →
      (∀ j, 0 < j → j < k → (content ++ ((rest.take j).flatten)).length ≤ maxLimit) →
      load_page_loop maxLimit marker rest content.length content
        = truncateAtMarker marker (content ++ ((rest.take k).flatten)) := by
  intro rest
  induction rest with
  | nil =>
    intro content k _ _ hk hkle _ _ _
    exact absurd hkle (by simp; omega)
  | cons c rest2 ih =>
    intro content k hnom hlen hk hkle hmk hnomj hszj
    simp only [load_page_loop]
    by_cases hm1 : hasMarker marker (content ++ c) = true
    · have hk1 : k = 1 := by
        by_contra hne
        have h1k : 1 < k := by omega
        have hj1 := hnomj 1 h1k
        rw [show (((c :: rest2).take 1).flatten) = c from by simp] at hj1
        rw [hj1] at hm1
        cases hm1
      subst hk1
      rw [if_pos hm1]
      rw [show (((c :: rest2).take 1).flatten) = c from by simp]
    · have hk2 : 2 ≤ k := by
        rcases Nat.lt_or_ge k 2 with h | h
        · exfalso
          have hke : k = 1 := by omega
          subst hke
          rw [show (((c :: rest2).take 1).flatten) = c from by simp] at hmk
          exact hm1 hmk
        · exact h
      have hsz1 : (content ++ c).length ≤ maxLimit := by
        have := hszj 1 (by omega) (by omega)
        rwa [show (((c :: rest2).take 1).flatten) = c from by simp] at this
      rw [if_neg hm1, if_neg (by rw [← List.length_append]; omega)]
      have hlen2 : content.length + c.length = (content ++ c).length :=
        (List.length_append content c).symm
      rw [hlen2]
      have hres := ih (content ++ c) (k - 1)
        (by simpa using hm1)
        hsz1
        (by omega)
        (by simp at hkle; omega)
        (by rw [List.append_assoc, ← take_flatten_cons c rest2 (k - 1)]
            rw [show k - 1 + 1 = k from by omega]
            exact hmk)
        (by intro j hj
            rw [List.append_assoc, ← take_flatten_cons c rest2 j]
            exact hnomj (j + 1) (by omega))
        (by intro j hj0 hj
            rw [List.append_assoc, ← take_flatten_cons c rest2 j]
            exact hszj (j + 1) (by omega) (by omega))
      rw [hres, List.append_assoc, ← take_flatten_cons c rest2 (k - 1),
        show k - 1 + 1 = k from by omega]

/-- Cap-stop: if no reached buffer contains the marker and `k` is the first
chunk count whose cumulative buffer exceeds the cap, the loop returns that
buffer as is. -/
theorem load_page_loop_cap (maxLimit : Nat) (marker : List Char) :
    ∀ (rest : List (List Char)) (content : List Char) (k : Nat),
      hasMarker marker content = false →
      content.length ≤ maxLimit →
      0 < k → k ≤ rest.length →
      (∀ j, j ≤ k → hasMarker marker (content ++ ((rest.take j).flatten)) = false) →
      (∀ j, j < k → (content ++ ((rest.take j).flatten)).length ≤ maxLimit) →
      maxLimit < (content ++ ((rest.take k).flatten)).length →
      load_page_loop maxLimit marker rest content.length content
        = content ++ ((rest.take k).flatten) := by
  intro rest
  induction rest with
  | nil =>
    intro content k _ _ hk hkle _ _ _
    exact absurd hkle (by simp; omega)
  | cons c rest2 ih =>
    intro content k hnom hlen hk hkle hnomj hszj hover
    simp only [load_page_loop]
    have hm1 : ¬ hasMarker marker (content ++ c) = true := by
      have := hnomj 1 (by omega)
      rw [show (((c :: rest2).take 1).flatten) = c from by simp] at this
      simp [this]
    rw [if_neg hm1]
    by_cases hcap : content.length + c.length > maxLimit
    · have hk1 : k = 1 := by
        by_contra hne
        have := hszj 1 (by omega)
        rw [show (((c :: rest2).take 1).flatten) = c from by simp,
          List.length_append] at this
        omega
      subst hk1
      rw [if_pos hcap]
      rw [show (((c :: rest2).take 1).flatten) = c from by simp]
    · have hk2 : 2 ≤ k := by
        rcases Nat.lt_or_ge k 2 with h | h
        · exfalso
          have hke : k = 1 := by omega
          subst hke
          rw [show (((c :: rest2).take 1).flatten) = c from by simp,
            List.length_append] at hover
          omega
        · exact h
      rw [if_neg hcap]
      have hlen2 : content.length + c.length = (content ++ c).length :=
        (List.length_append content c).symm
      rw [hlen2]
      have hres := ih (content ++ c) (k - 1)
        (by simpa using hm1)
        (by rw [List.length_append]; omega)
        (by omega)
        (by simp at hkle; omega)
        (by intro j hj
            rw [List.append_assoc, ← take_flatten_cons c rest2 j]
            exact hnomj (j + 1) (by omega))
        (by intro j hj
            rw [List.append_assoc, ← take_flatten_cons c rest2 j]
            exact hszj (j + 1) (by omega))
        (by rw [List.append_assoc, ← take_flatten_cons c rest2 (k - 1),
              show k - 1 + 1 = k from by omega]
            exact hover)
      rw [hres, List.append_assoc, ← take_flatten_cons c rest2 (k - 1),
        show k - 1 + 1 = k from by omega]

/-- Run to completion: with no marker anywhere and no buffer before the last
exceeding the cap, the whole stream is accumulated. -/
theorem load_page_loop_all (maxLimit : Nat) (marker : List Char) :
    ∀ (rest : List (List Char)) (content : List Char),
      hasMarker marker content = false →
      content.length ≤ maxLimit →
      (∀ j, j ≤ rest.length → hasMarker marker (content ++ ((rest.take j).flatten)) = false) →
      (∀ j, j < rest.length → (content ++ ((rest.take j).flatten)).length ≤ maxLimit) →
      load_page_loop maxLimit marker rest content.length content
        = content ++ rest.flatten := by
  intro rest
  induction rest with
  | nil =>
    intro content _ _ _ _
    simp [load_page_loop]
  | cons c rest2 ih =>
    intro content hnom hlen hnomj hszj
    simp only [load_page_loop]
    have hm1 : ¬ hasMarker marker (content ++ c) = true := by
      have := hnomj 1 (by simp)
      rw [show (((c :: rest2).take 1).flatten) = c from by simp] at this
      simp [this]
    rw [if_neg hm1]
    by_cases hcap : content.length + c.length > maxLimit
    · have hrest2 : rest2 = [] := by
        cases rest2 with
        | nil => rfl
        | cons d rest3 =>
          exfalso
          have := hszj 1 (by simp)
          rw [show (((c :: d :: rest3).take 1).flatten) = c from by simp,
            List.length_append] at this
          omega
      subst hrest2
      rw [if_pos hcap]
      simp
    · rw [if_neg hcap]
      have hlen2 : content.length + c.length = (content ++ c).length :=
        (List.length_append content c).symm
      rw [hlen2]
      have hres := ih (content ++ c)
        (by simpa using hm1)
        (by rw [List.length_append]; omega)
        (by intro j hj
            rw [List.append_assoc, ← take_flatten_cons c rest2 j]
            exact hnomj (j + 1) (by simp; omega))
        (by intro j hj
            rw [List.append_assoc, ← take_flatten_cons c rest2 j]
            exact hszj (j + 1) (by simp; omega))
      rw [hres, List.append_assoc]
      simp

theorem truncateAtMarker_eq_take {marker buf : List Char} {i : Nat}
    (h : findMarker marker buf = some i) :
    truncateAtMarker marker buf = buf.take (i + marker.length) := by
  unfold truncateAtMarker
  rw [h]

/-- Memory bound: relative to a bound on individual chunk sizes, the
accumulated buffer never exceeds the cap plus one chunk. -/
theorem load_page_loop_bound (maxLimit chunkSize : Nat) (marker : List Char) :
    ∀ (rest : List (List Char)) (content : List Char),
      content.length ≤ maxLimit →
      (∀ c, c ∈ rest → c.length ≤ chunkSize) →
      (load_page_loop maxLimit marker rest content.length content).length
        ≤ maxLimit + chunkSize := by
  intro rest
  induction rest with
  | nil =>
    intro content hlen _
    simp only [load_page_loop]
    omega
  | cons c rest2 ih =>
    intro content hlen hchunks
    have hc : c.length ≤ chunkSize := hchunks c (List.mem_cons_self c rest2)
    simp only [load_page_loop]
    by_cases hm1 : hasMarker marker (content ++ c) = true
    · rw [if_pos hm1]
      unfold truncateAtMarker
      have hbound : (content ++ c).length ≤ maxLimit + chunkSize := by
        rw [List.length_append]
        omega
      rcases hf : findMarker marker (content ++ c) with _ | i
      · exact hbound
      · calc ((content ++ c).take (i + marker.length)).length
            ≤ (content ++ c).length := by
              rw [List.length_take]
              omega
          _ ≤ maxLimit + chunkSize := hbound
    · rw [if_neg hm1]
      by_cases hcap : content.length + c.length > maxLimit
      · rw [if_pos hcap, List.length_append]
        omega
      · rw [if_neg hcap]
        have hlen2 : content.length + c.length = (content ++ c).length :=
          (List.length_append content c).symm
        rw [hlen2]
        exact ih (content ++ c) (by rw [List.length_append]; omega)
          (fun d hd => hchunks d (List.mem_cons_of_mem c hd))

/-- C7. For every chunk sequence: (1) if `k` is the first chunk count whose
cumulative buffer contains the closing-head marker (straddling chunk
boundaries included, since detection is against the cumulative buffer) and
no earlier buffer exceeded the cap, `load_page` returns that buffer
truncated to end exactly at the first marker occurrence, inclusive; (2) if
the marker never appears and `k` is the first chunk count whose buffer
exceeds the cap, it stops there and returns that buffer; (3) with no marker
and no overflow the whole stream is returned; (4) when every chunk is at
most `chunkSize` long, the accumulated buffer never exceeds
`maxLimit + chunkSize`. -/
theorem C7_bounded_fetch (chunks : List (List Char)) (maxLimit chunkSize : Nat) :
    (∀ k, 0 < k → k ≤ chunks.length →
      hasMarker endOfHead ((chunks.take k).flatten) = true →
      (∀ j, j < k → hasMarker endOfHead ((chunks.take j).flatten) = false) →
      (∀ j, 0 < j → j < k → ((chunks.take j).flatten).length ≤ maxLimit) →
      load_page_content chunks maxLimit
        = truncateAtMarker endOfHead ((chunks.take k).flatten)
      ∧ ∃ i, findMarker endOfHead ((chunks.take k).flatten) = some i
        ∧ load_page_content chunks maxLimit
            = ((chunks.take k).flatten).take (i + endOfHead.length)
        ∧ endOfHead <+: ((chunks.take k).flatten).drop i
        ∧ ∀ j, j < i → ¬ endOfHead <+: ((chunks.take k).flatten).drop j)
    ∧ (∀ k, 0 < k → k ≤ chunks.length →
      (∀ j, j ≤ k → hasMarker endOfHead ((chunks.take j).flatten) = false) →
      (∀ j, j < k → ((chunks.take j).flatten).length ≤ maxLimit) →
      maxLimit < ((chunks.take k).flatten).length →
      load_page_content chunks maxLimit = (chunks.take k).flatten)
    ∧ ((∀ j, j ≤ chunks.length → hasMarker endOfHead ((chunks.take j).flatten) = false) →
      (∀ j, j < chunks.length → ((chunks.take j).flatten).length ≤ maxLimit) →
      load_page_content chunks maxLimit = chunks.flatten)
    ∧ ((∀ c, c ∈ chunks → c.length ≤ chunkSize) →
      (load_page_content chunks maxLimit).length ≤ maxLimit + chunkSize) := by
  refine ⟨?_, ?_, ?_, ?_⟩
  · intro k hk0 hkle hmk hnomj hszj
    have hmain := load_page_loop_marker maxLimit endOfHead chunks [] k
      (by decide) (Nat.zero_le _) hk0 hkle hmk hnomj hszj
    refine ⟨hmain, ?_⟩
    have hsome : (findMarker endOfHead ((chunks.take k).flatten)).isSome = true := hmk
    rcases hf : findMarker endOfHead ((chunks.take k).flatten) with _ | i
    · rw [hf] at hsome
      exact Bool.noConfusion hsome
    · obtain ⟨hpre, hmin⟩ := findMarker_some hf
      refine ⟨i, rfl, ?_, hpre, hmin⟩
      calc load_page_content chunks maxLimit
          = truncateAtMarker endOfHead ((chunks.take k).flatten) := hmain
        _ = ((chunks.take k).flatten).take (i + endOfHead.length) :=
            truncateAtMarker_eq_take hf
  · intro k hk0 hkle hnomj hszj hover
    exact load_page_loop_cap maxLimit endOfHead chunks [] k
      (by decide) (Nat.zero_le _) hk0 hkle hnomj hszj hover
  · intro hnomj hszj
    exact load_page_loop_all maxLimit endOfHead chunks []
      (by decide) (Nat.zero_le _) hnomj hszj
  · intro hchunks
    exact load_page_loop_bound maxLimit chunkSize endOfHead chunks []
      (Nat.zero_le _) hchunks

def c7chunks : List (List Char) :=
  ["<html><he".data, "ad>x</he".data, "ad><body>".data]

/-- C7 witness: on a stream where the closing-head marker straddles the
second and third chunk boundaries, the fetch stops after the third chunk
and returns the buffer truncated at the marker, within the memory bound. -/
theorem C7_bounded_fetch_witness :
    load_page_content c7chunks 100 = "<html><head>x</head>".data ∧
    (load_page_content c7chunks 100).length ≤ 100 + 9 := by
  have h := C7_bounded_fetch c7chunks 100 9
  have h1 := (h.1 3 (by decide) (by decide) (by decide)
    (by decide)
    (by intro j hj0 hj
        interval_cases j <;> decide)).1
  constructor
  · rw [h1]
    decide
  · exact h.2.2.2 (by decide)

end LinkdingVerify
